import Mathlib

/-!
# DCCWaveform: the DCC packet encoder, scheduler and acknowledgment detector

A shallow embedding of `DCCWaveform.cpp` (CommandStation-EX).  One `Track`
value is one `DCCWaveform` object.  Bytes are natural numbers; increments of
`byte` fields are taken modulo 256 where the source can overflow.  Arrays are
lists; a read outside a list yields 0.

`DCCWaveform.h` is not part of the sources read here, so the constants it
declares (`MAX_PACKET_SIZE`, `idlePacket`, `resetPacket`) and the width of
the duration fields are parameters, collected in `Params`.
-/

set_option linter.dupNamespace false

namespace DCCWaveform

/-- The states of the wave generator, numbered 0 to 5 as the transform tables
index them. -/
inductive WAVE_STATE where
  | WAVE_START
  | WAVE_MID_1
  | WAVE_HIGH_0
  | WAVE_MID_0
  | WAVE_LOW_0
  | WAVE_PENDING
deriving DecidableEq

open WAVE_STATE

/-- Constants declared in `DCCWaveform.h`: the maximum payload size, the two
filler packets, and the modulus of the integer type of the fields
`ackPulseDuration` and `ackCheckDuration`. -/
structure Params where
  MAX_PACKET_SIZE : Nat
  idlePacket : List Nat
  resetPacket : List Nat
  durationModulus : Nat
deriving DecidableEq

/-- The constraints the source relies on: the pending length `byteCount + 1`
fits a byte, the two filler packets have the same nonzero length ("Fortunately
reset and idle packets are the same length") and fit the transmit buffer. -/
def Params.WF (p : Params) : Prop :=
  p.MAX_PACKET_SIZE < 255 ∧
  p.resetPacket.length = p.idlePacket.length ∧
  0 < p.idlePacket.length ∧
  p.idlePacket.length ≤ p.MAX_PACKET_SIZE + 1

instance (p : Params) : Decidable p.WF := by
  unfold Params.WF
  infer_instance

/-- The values of the CommandStation-EX header on an 8-bit AVR board. -/
def avrParams : Params where
  MAX_PACKET_SIZE := 5
  idlePacket := [0xFF, 0x00, 0xFF]
  resetPacket := [0x00, 0x00, 0x00]
  durationModulus := 65536

/-- The fields of one `DCCWaveform` object that the waveform code reads or
writes. -/
structure Track where
  isMainTrack : Bool
  state : WAVE_STATE
  transmitPacket : List Nat
  transmitLength : Nat
  transmitRepeats : Nat
  remainingPreambles : Nat
  requiredPreambles : Nat
  bits_sent : Nat
  bytes_sent : Nat
  pendingPacket : List Nat
  pendingLength : Nat
  pendingRepeats : Nat
  packetPending : Bool
  sentResetsSincePacket : Nat
  ackPending : Bool
  ackDetected : Bool
  ackThreshold : Int
  ackMaxCurrent : Int
  ackCheckStart : Nat
  ackCheckDuration : Nat
  ackPulseDuration : Nat
  ackPulseStart : Nat
  minAckPulseDuration : Nat
  maxAckPulseDuration : Nat
deriving DecidableEq

/-- Both packet arrays are declared with `MAX_PACKET_SIZE + 1` entries. -/
def Track.WF (p : Params) (t : Track) : Prop :=
  t.transmitPacket.length = p.MAX_PACKET_SIZE + 1 ∧
  t.pendingPacket.length = p.MAX_PACKET_SIZE + 1

instance (p : Params) (t : Track) : Decidable (t.WF p) := by
  unfold Track.WF
  infer_instance

/-- The call `memcpy(dst, src, n)`: the first `n` entries of `dst` are replaced by
those of `src`. -/
def memcpy (dst src : List Nat) (n : Nat) : List Nat :=
  src.take n ++ dst.drop n

/-- This bitmask has 9 entries as each byte is transmitted as a zero + 8 bits. -/
def bitMask : List Nat := [0x00, 0x80, 0x40, 0x20, 0x10, 0x08, 0x04, 0x02, 0x01]

/-- For each state of the wave, `nextState = stateTransform[currentState]`. -/
def stateTransform : WAVE_STATE → WAVE_STATE
  | WAVE_START => WAVE_PENDING
  | WAVE_MID_1 => WAVE_START
  | WAVE_HIGH_0 => WAVE_MID_0
  | WAVE_MID_0 => WAVE_LOW_0
  | WAVE_LOW_0 => WAVE_START
  | WAVE_PENDING => WAVE_PENDING

/-- For each state of the wave, the signal pin is HIGH (`true`) or LOW. -/
def signalTransform : WAVE_STATE → Bool
  | WAVE_START => true
  | WAVE_MID_1 => false
  | WAVE_HIGH_0 => true
  | WAVE_MID_0 => false
  | WAVE_LOW_0 => false
  | WAVE_PENDING => false

/-- The constructor `DCCWaveform::DCCWaveform(preambleBits, isMain)`.  It assigns
eight fields; every other field keeps the content `mem` of the storage the
object is built in (all zero for the static `mainTrack`). -/
def DCCWaveform (p : Params) (mem : Track) (preambleBits : Nat) (isMain : Bool) : Track :=
  { mem with
    isMainTrack := isMain
    packetPending := false
    transmitPacket := memcpy mem.transmitPacket p.idlePacket p.idlePacket.length
    state := WAVE_START
    requiredPreambles := (preambleBits + 1) % 256
    bytes_sent := 0
    bits_sent := 0
    ackPending := false }

/-- Zero-initialised storage of one object: what a static object holds before
its constructor runs. -/
def zeroStorage (p : Params) : Track where
  isMainTrack := false
  state := WAVE_START
  transmitPacket := List.replicate (p.MAX_PACKET_SIZE + 1) 0
  transmitLength := 0
  transmitRepeats := 0
  remainingPreambles := 0
  requiredPreambles := 0
  bits_sent := 0
  bytes_sent := 0
  pendingPacket := List.replicate (p.MAX_PACKET_SIZE + 1) 0
  pendingLength := 0
  pendingRepeats := 0
  packetPending := false
  sentResetsSincePacket := 0
  ackPending := false
  ackDetected := false
  ackThreshold := 0
  ackMaxCurrent := 0
  ackCheckStart := 0
  ackCheckDuration := 0
  ackPulseDuration := 0
  ackPulseStart := 0
  minAckPulseDuration := 0
  maxAckPulseDuration := 0

/-- The bit chosen for the wave: `WAVE_MID_1` for a 1 bit, `WAVE_HIGH_0` for a
0 bit, from `transmitPacket[bytes_sent] & bitMask[bits_sent]`. -/
def nextBit (t : Track) : WAVE_STATE :=
  if (t.transmitPacket.getD t.bytes_sent 0 &&& bitMask.getD t.bits_sent 0) ≠ 0
  then WAVE_MID_1 else WAVE_HIGH_0

/-- The member function `interrupt2`: calculate the next bit to be sent.  The call
`updateMinimumFreeMemory` is a diagnostic and touches no field modelled here. -/
def interrupt2 (p : Params) (t : Track) : Track :=
  if t.remainingPreambles > 0 then
    { t with state := WAVE_MID_1, remainingPreambles := t.remainingPreambles - 1 }
  else
    let t1 := { t with state := nextBit t, bits_sent := (t.bits_sent + 1) % 256 }
    if t1.bits_sent = 9 then
      let t2 := { t1 with bits_sent := 0, bytes_sent := (t1.bytes_sent + 1) % 256 }
      if t2.bytes_sent ≥ t2.transmitLength then
        let t3 := { t2 with bytes_sent := 0, remainingPreambles := t2.requiredPreambles }
        if t3.transmitRepeats > 0 then
          { t3 with transmitRepeats := t3.transmitRepeats - 1 }
        else if t3.packetPending then
          { t3 with
            transmitPacket := memcpy t3.transmitPacket t3.pendingPacket t3.pendingPacket.length
            transmitLength := t3.pendingLength
            transmitRepeats := t3.pendingRepeats
            packetPending := false
            sentResetsSincePacket := 0 }
        else
          { t3 with
            transmitPacket :=
              memcpy t3.transmitPacket (if t3.isMainTrack then p.idlePacket else p.resetPacket)
                p.idlePacket.length
            transmitLength := p.idlePacket.length
            transmitRepeats := 0
            sentResetsSincePacket :=
              if t3.sentResetsSincePacket < 250 then t3.sentResetsSincePacket + 1
              else t3.sentResetsSincePacket }
      else t2
    else t1

/-- The body of the `for` loop of `schedulePacket`, run for `b = 0 .. byteCount-1`
on the pair (checksum, pendingPacket). -/
def scheduleLoop (buffer : Nat → Nat) (byteCount : Nat) (pending : List Nat) : Nat × List Nat :=
  (List.range byteCount).foldl
    (fun acc b => (acc.1 ^^^ buffer b, acc.2.set b (buffer b))) (0, pending)

/-- The function `schedulePacket(buffer, byteCount, repeats)`: `buffer b` is the
byte `buffer[b]`.  The result is `none` when the call spins in
`while (packetPending);`, which only an interrupt can end. -/
def schedulePacket (p : Params) (t : Track) (buffer : Nat → Nat) (byteCount repeats : Nat) :
    Option Track :=
  if byteCount > p.MAX_PACKET_SIZE then some t
  else if t.packetPending then none
  else
    let r := scheduleLoop buffer byteCount t.pendingPacket
    some { t with
      pendingPacket := r.2.set byteCount r.1
      pendingLength := (byteCount + 1) % 256
      pendingRepeats := repeats
      packetPending := true
      sentResetsSincePacket := 0 }

/-- The function `setAckPending`, called when `millis()` reads `millis`. -/
def setAckPending (t : Track) (millis : Nat) : Track :=
  if t.isMainTrack then t
  else
    { t with
      ackMaxCurrent := 0
      ackPulseStart := 0
      ackPulseDuration := 0
      ackDetected := false
      ackCheckStart := millis
      ackPending := true }

/-- The function `getAck`: the value returned and the object after the call (the
diagnostic print writes to the serial stream only). -/
def getAck (t : Track) : Nat × Track :=
  if t.ackPending then (2, t)
  else if t.ackDetected then (1, t)
  else (0, t)

/-- The difference `now - start` of two `unsigned long` clock readings, as it is
stored in a duration field. -/
def elapsed (p : Params) (now start : Nat) : Nat :=
  ((now + 2 ^ 32 - start % 2 ^ 32) % 2 ^ 32) % p.durationModulus

/-- The value of the expression `micros() - ackPulseStart`, a difference of two
`unsigned long` clock readings, before it is stored in `ackPulseDuration`: the
duration of the pulse. -/
def pulseDuration (now start : Nat) : Nat :=
  (now + 2 ^ 32 - start % 2 ^ 32) % 2 ^ 32

/-- The function `checkAck`, run when the driver reports the raw current
`current` and the clocks read `micros` and `millis`. -/
def checkAck (p : Params) (t : Track) (current : Int) (micros millis : Nat) : Track :=
  if t.sentResetsSincePacket > 6 then
    { t with ackCheckDuration := elapsed p millis t.ackCheckStart, ackPending := false }
  else
    let t1 := if current > t.ackMaxCurrent then { t with ackMaxCurrent := current } else t
    if current > t1.ackThreshold then
      if t1.ackPulseStart = 0 then { t1 with ackPulseStart := micros } else t1
    else if t1.ackPulseStart = 0 then t1
    else
      let t2 := { t1 with ackPulseDuration := elapsed p micros t1.ackPulseStart }
      if t2.ackPulseDuration ≥ t2.minAckPulseDuration ∧
          t2.ackPulseDuration ≤ t2.maxAckPulseDuration then
        { t2 with
          ackCheckDuration := elapsed p millis t2.ackCheckStart
          ackDetected := true
          ackPending := false
          transmitRepeats := 0 }
      else { t2 with ackPulseStart := 0 }

/-- The bits chosen by `k` successive calls of `interrupt2`, oldest first. -/
def emitted (p : Params) : Nat → Track → List WAVE_STATE
  | 0, _ => []
  | k + 1, t => (interrupt2 p t).state :: emitted p k (interrupt2 p t)

/-- The track after `k` successive calls of `interrupt2`. -/
def run (p : Params) : Nat → Track → Track
  | 0, t => t
  | k + 1, t => run p k (interrupt2 p t)

/-! ## The wire format, as the specification words it -/

/-- The XOR of all bytes of a list (0 for the empty list). -/
def xorAll (l : List Nat) : Nat := l.foldl (fun c b => c ^^^ b) 0

/-- The payload `buffer[0 .. byteCount-1]`. -/
def payload (buffer : Nat → Nat) (byteCount : Nat) : List Nat := (List.range byteCount).map buffer

/-- The argument `buffer` of `schedulePacket` when the caller's array holds `P`. -/
def bufferOf (P : List Nat) : Nat → Nat := fun i => P.getD i 0

/-- A 1 bit is `WAVE_MID_1`, a 0 bit is `WAVE_HIGH_0`. -/
def bitOf (b : Bool) : WAVE_STATE := if b then WAVE_MID_1 else WAVE_HIGH_0

/-- The nine bits of a byte on the wire: one 0 framing bit, then the eight bits of
the byte, most significant first. -/
def byteBits (b : Nat) : List WAVE_STATE :=
  WAVE_HIGH_0 :: (List.range 8).map (fun i => bitOf (b.testBit (7 - i)))

/-- The bits of a sequence of bytes, in order. -/
def packetBits (bytes : List Nat) : List WAVE_STATE := bytes.flatMap byteBits

/-- The preamble of a packet loaded at a packet boundary: `requiredPreambles`
1 bits. -/
def preamble (t : Track) : List WAVE_STATE := List.replicate t.requiredPreambles WAVE_MID_1

/-- The filler packet of a track: idle on the main track, reset on the
programming track. -/
def filler (p : Params) (isMain : Bool) : List Nat :=
  if isMain then p.idlePacket else p.resetPacket

/-! ## Positions of the encoder -/

/-- The next `interrupt2` call sends the last bit of the last byte of the
transmit buffer. -/
def AtBoundary (t : Track) : Prop :=
  t.remainingPreambles = 0 ∧ t.bits_sent = 8 ∧ (t.bytes_sent + 1) % 256 ≥ t.transmitLength

instance (t : Track) : Decidable (AtBoundary t) := by
  unfold AtBoundary
  infer_instance

/-- The encoder stands at the start of a packet loaded at a packet boundary. -/
def PacketStart (t : Track) : Prop :=
  t.remainingPreambles = t.requiredPreambles ∧ t.bits_sent = 0 ∧ t.bytes_sent = 0 ∧
    1 ≤ t.transmitLength ∧ t.transmitLength ≤ 255 ∧ t.transmitLength ≤ t.transmitPacket.length

instance (t : Track) : Decidable (PacketStart t) := by
  unfold PacketStart
  infer_instance

/-- The track as the last call of the current packet finds it. -/
def lastCall (t : Track) : Track :=
  { t with remainingPreambles := 0, bits_sent := 8, bytes_sent := t.transmitLength - 1 }

/-- The track at the start of the filler packet loaded at a packet boundary. -/
def loadFiller (p : Params) (t : Track) : Track :=
  { t with
    remainingPreambles := t.requiredPreambles
    bits_sent := 0
    bytes_sent := 0
    transmitPacket := memcpy t.transmitPacket (filler p t.isMainTrack) p.idlePacket.length
    transmitLength := p.idlePacket.length
    transmitRepeats := 0
    sentResetsSincePacket :=
      if t.sentResetsSincePacket < 250 then t.sentResetsSincePacket + 1
      else t.sentResetsSincePacket }

/-- The next `interrupt2` call is a packet-boundary call that takes up the
pending packet. -/
def TakesPending (t : Track) : Prop :=
  AtBoundary t ∧ t.transmitRepeats = 0 ∧ t.packetPending = true

instance (t : Track) : Decidable (TakesPending t) := by
  unfold TakesPending
  infer_instance

/-- The static main track (16 preamble bits) nine calls after construction, at
the start of its first idle packet. -/
def exampleMain : Track :=
  run avrParams 9 (DCCWaveform avrParams (zeroStorage avrParams) 16 true)

/-! ## Acknowledgment sessions -/

/-- What can happen to a programming track while an acknowledgment session is
armed: the dispatcher advances the wave state, calls `interrupt2`, or (when
`ackPending`) calls `checkAck` with the current sample; the main loop calls
`schedulePacket`. -/
inductive Op where
  | advance
  | encode
  | sample (current : Int) (micros millis : Nat)
  | schedule (buffer : Nat → Nat) (byteCount repeats : Nat)

/-- One event on a track.  A `schedulePacket` call that would spin leaves the
track as it is. -/
def applyOp (p : Params) (t : Track) : Op → Track
  | Op.advance => { t with state := stateTransform t.state }
  | Op.encode => interrupt2 p t
  | Op.sample current micros millis =>
    if t.ackPending then checkAck p t current micros millis else t
  | Op.schedule buffer byteCount repeats => (schedulePacket p t buffer byteCount repeats).getD t

/-- A sequence of events, oldest first. -/
def runOps (p : Params) (t : Track) (ops : List Op) : Track := ops.foldl (applyOp p) t

/-- The value of `sentResetsSincePacket` at every `checkAck` call made during a
sequence of events, oldest first. -/
def checkCalls (p : Params) : Track → List Op → List Nat
  | _, [] => []
  | t, Op.sample current micros millis :: ops =>
    (if t.ackPending then [t.sentResetsSincePacket] else []) ++
      checkCalls p (applyOp p t (Op.sample current micros millis)) ops
  | t, op :: ops => checkCalls p (applyOp p t op) ops

/-- The current sample of an event does not exceed the threshold. -/
def Quiet (threshold : Int) : Op → Prop
  | Op.sample current _ _ => current ≤ threshold
  | _ => True

instance (threshold : Int) (op : Op) : Decidable (Quiet threshold op) := by
  cases op <;> unfold Quiet <;> infer_instance

/-! ## Example tracks -/

/-- A programming track (22 preamble bits) right after construction, with an
acknowledgment threshold of 100 raw units. -/
def exampleProg : Track :=
  { DCCWaveform avrParams (zeroStorage avrParams) 22 false with ackThreshold := 100 }

/-- A session without any pulse: one sample, 309 encoder calls (nine for the
first buffer, then six filler packets of 50 calls), one more sample. -/
def exampleSession : List Op :=
  Op.sample 50 0 0 :: (List.replicate 309 Op.encode ++ [Op.sample 60 0 0])

/-- A programming track in a session with a pulse that began at 1000 µs, an
acceptance window of [4000, 8000] µs and three repeats left. -/
def exampleAck : Track :=
  { DCCWaveform avrParams (zeroStorage avrParams) 22 false with
    ackThreshold := 100
    ackPending := true
    ackPulseStart := 1000
    minAckPulseDuration := 4000
    maxAckPulseDuration := 8000
    transmitRepeats := 3 }

/-- The main track at the last bit of the first transmission of a packet with
repeats left, a second packet already scheduled: `exampleMain` after
`{0x03, 0x22, 0x10}` with 2 repeats was scheduled and taken up and `{0x05, 0x70}`
was scheduled. -/
def exampleRepeating : Track :=
  let s1 := (schedulePacket avrParams exampleMain (bufferOf [0x03, 0x22, 0x10]) 3 2).getD
    exampleMain
  let u := run avrParams 44 s1
  let s2 := (schedulePacket avrParams u (bufferOf [0x05, 0x70]) 2 0).getD u
  run avrParams 52 s2

/-! ## The dispatcher and the control loop -/

/-- What one timer tick does: the levels handed to the two drivers by
`setSignal`, and the two tracks after the tick. -/
structure Tick where
  sigMain : Bool
  sigProg : Bool
  mainTrack : Track
  progTrack : Track
deriving DecidableEq

/-- The function `interruptHandler`, run with the static flag `progTrackSyncMain`;
`current`, `micros` and `millis` are what `checkAck` reads if it is called. -/
def interruptHandler (p : Params) (progTrackSyncMain : Bool) (mainTrack progTrack : Track)
    (current : Int) (micros millis : Nat) : Tick :=
  let sigMain := signalTransform mainTrack.state
  let sigProg := if progTrackSyncMain then sigMain else signalTransform progTrack.state
  let main1 := { mainTrack with state := stateTransform mainTrack.state }
  let prog1 := { progTrack with state := stateTransform progTrack.state }
  let main2 := if main1.state = WAVE_PENDING then interrupt2 p main1 else main1
  let prog2 :=
    if prog1.state = WAVE_PENDING then interrupt2 p prog1
    else if prog1.ackPending then checkAck p prog1 current micros millis
    else prog1
  { sigMain := sigMain, sigProg := sigProg, mainTrack := main2, progTrack := prog2 }

/-- The function `interruptHandlerNoProgtrack`: the level handed to the main driver
and the main track after the tick. -/
def interruptHandlerNoProgtrack (p : Params) (mainTrack : Track) : Bool × Track :=
  let sigMain := signalTransform mainTrack.state
  let main1 := { mainTrack with state := stateTransform mainTrack.state }
  let main2 := if main1.state = WAVE_PENDING then interrupt2 p main1 else main1
  (sigMain, main2)

/-- The levels emitted by `k` successive ticks of `interruptHandlerNoProgtrack`,
oldest first. -/
def levels (p : Params) : Nat → Track → List Bool
  | 0, _ => []
  | k + 1, t => (interruptHandlerNoProgtrack p t).1 :: levels p k (interruptHandlerNoProgtrack p t).2

/-- The main track after `k` successive ticks of `interruptHandlerNoProgtrack`. -/
def ticksNoProgtrack (p : Params) : Nat → Track → Track
  | 0, t => t
  | k + 1, t => ticksNoProgtrack p k (interruptHandlerNoProgtrack p t).2

/-- What one tick of `interruptHandler` reads from outside the two tracks. -/
structure TickInput where
  progTrackSyncMain : Bool
  current : Int
  micros : Nat
  millis : Nat

/-- The two tracks after a sequence of ticks of `interruptHandler`, oldest
first. -/
def ticks (p : Params) : List TickInput → Track × Track → Track × Track
  | [], s => s
  | i :: rest, s =>
    let r := interruptHandler p i.progTrackSyncMain s.1 s.2 i.current i.micros i.millis
    ticks p rest (r.mainTrack, r.progTrack)

/-- The overload checks of `loop(ackManagerActive)`: the calls of
`checkPowerOverload`, in order, each with the driver it is made on and its
argument.  `mainChain` is the chain `mainTrack.motorDriver`, `nextDriver`, ... and
`progDriver` the driver of the programming track when there is one.  The gauge
report that follows only prints. -/
def loop (mainChain : List Nat) (progDriver : Option Nat)
    (ackManagerActive progTrackSyncMain progTrackBoosted : Bool) : List (Nat × Bool) :=
  mainChain.map (fun driver => (driver, false)) ++
    (match progDriver with
     | some driver =>
       [(driver, !ackManagerActive && !progTrackSyncMain && !progTrackBoosted)]
     | none => [])

/-- The cursor bounds of the encoder and of the pending slot. -/
def CursorBounds (p : Params) (t : Track) : Prop :=
  1 ≤ t.transmitLength ∧ t.transmitLength ≤ p.MAX_PACKET_SIZE + 1 ∧ t.bits_sent ≤ 8 ∧
    t.bytes_sent < t.transmitLength ∧
    (t.packetPending = true →
      1 ≤ t.pendingLength ∧ t.pendingLength ≤ p.MAX_PACKET_SIZE + 1)

instance (p : Params) (t : Track) : Decidable (CursorBounds p t) := by
  unfold CursorBounds
  infer_instance

/-- The main track `exampleMain` when the wave is back at `WAVE_START`. -/
def exampleStart : Track := { exampleMain with state := WAVE_START }

/-- A programming track whose last session ended with an acknowledgment. -/
def exampleAcked : Track :=
  { exampleProg with
    ackDetected := true
    ackMaxCurrent := 180
    ackPulseStart := 1000
    ackPulseDuration := 6000 }

/-- Two tracks that differ at most in the wave state, which `interrupt2` never
reads. -/
def SameCore (t u : Track) : Prop :=
  { t with state := WAVE_START } = { u with state := WAVE_START }

end DCCWaveform

/-! ## The scheduler loop -/

namespace DCCWaveform

open WAVE_STATE

theorem set_append_drop (l : List Nat) (pre : List Nat) (n x : Nat) (hn : n < l.length)
    (hpre : pre.length = n) :
    (pre ++ l.drop n).set n x = (pre ++ [x]) ++ l.drop (n + 1) := by
  subst hpre
  simp only [List.set_append, lt_self_iff_false, if_false, Nat.sub_self, List.append_assoc,
    List.singleton_append]
  rw [List.drop_eq_getElem_cons hn, List.set_cons_zero]

theorem scheduleLoop_eq (buffer : Nat → Nat) (pending : List Nat) (n : Nat)
    (hn : n ≤ pending.length) :
    scheduleLoop buffer n pending = (xorAll (payload buffer n), payload buffer n ++ pending.drop n) := by
  induction n with
  | zero => simp [scheduleLoop, xorAll, payload]
  | succ k ih =>
    have ih1 := ih (by omega)
    unfold scheduleLoop at ih1 ⊢
    rw [List.range_succ, List.foldl_append, ih1]
    simp only [List.foldl_cons, List.foldl_nil]
    rw [set_append_drop pending _ k _ (by omega) (by simp [payload])]
    simp [xorAll, payload, List.range_succ, List.foldl_append]

theorem schedulePacket_accept (p : Params) (t : Track) (buffer : Nat → Nat) (byteCount repeats : Nat)
    (hlen : t.pendingPacket.length = p.MAX_PACKET_SIZE + 1)
    (hn : byteCount ≤ p.MAX_PACKET_SIZE) (hfree : t.packetPending = false) :
    schedulePacket p t buffer byteCount repeats = some { t with
      pendingPacket := payload buffer byteCount ++ [xorAll (payload buffer byteCount)] ++ t.pendingPacket.drop (byteCount + 1)
      pendingLength := (byteCount + 1) % 256
      pendingRepeats := repeats
      packetPending := true
      sentResetsSincePacket := 0 } := by
  unfold schedulePacket
  rw [if_neg (by omega), hfree]
  simp only [Bool.false_eq_true, if_false]
  rw [scheduleLoop_eq buffer _ _ (by omega)]
  simp only
  rw [set_append_drop _ _ _ _ (by omega) (by simp [payload])]


/-! ## The bit stream of the encoder -/

theorem and_two_pow_ne_zero (b k : Nat) : (b &&& 2 ^ k ≠ 0) ↔ b.testBit k = true := by
  constructor
  · intro h
    by_contra hb
    apply h
    apply Nat.eq_of_testBit_eq
    intro i
    by_cases hki : k = i
    · subst hki
      simpa using hb
    · simp [Nat.testBit_two_pow, hki]
  · intro h h0
    have := congrArg (fun x => x.testBit k) h0
    simp [Nat.testBit_two_pow, h] at this

theorem SameCore.refl (t : Track) : SameCore t t := rfl

theorem SameCore.symm {t u : Track} (h : SameCore t u) : SameCore u t := Eq.symm h

theorem SameCore.trans {t u v : Track} (h : SameCore t u) (h2 : SameCore u v) : SameCore t v :=
  Eq.trans h h2

theorem interrupt2_core (p : Params) {t u : Track} (h : SameCore t u) :
    interrupt2 p t = interrupt2 p u := by
  obtain ⟨a1, a2, a3, a4, a5, a6, a7, a8, a9, a10, a11, a12, a13, a14, a15, a16, a17, a18, a19,
    a20, a21, a22, a23, a24⟩ := t
  obtain ⟨b1, b2, b3, b4, b5, b6, b7, b8, b9, b10, b11, b12, b13, b14, b15, b16, b17, b18, b19,
    b20, b21, b22, b23, b24⟩ := u
  simp only [SameCore, Track.mk.injEq, true_and] at h
  obtain ⟨h1, h3, h4, h5, h6, h7, h8, h9, h10, h11, h12, h13, h14, h15, h16, h17, h18, h19,
    h20, h21, h22, h23, h24⟩ := h
  subst h1 h3 h4 h5 h6 h7 h8 h9 h10 h11 h12 h13 h14 h15 h16 h17 h18 h19 h20 h21 h22 h23 h24
  simp only [interrupt2, nextBit]

theorem emitted_core (p : Params) {t u : Track} (h : SameCore t u) (k : Nat) :
    emitted p k t = emitted p k u := by
  cases k with
  | zero => rfl
  | succ k => simp only [emitted, interrupt2_core p h]

theorem run_core (p : Params) {t u : Track} (h : SameCore t u) (k : Nat) :
    SameCore (run p k t) (run p k u) := by
  cases k with
  | zero => exact h
  | succ k => simp only [run, interrupt2_core p h]; exact SameCore.refl _

theorem emitted_add (p : Params) (a b : Nat) (t : Track) :
    emitted p (a + b) t = emitted p a t ++ emitted p b (run p a t) := by
  induction a generalizing t with
  | zero => simp [emitted, run]
  | succ a ih =>
    rw [Nat.add_right_comm]
    simp only [emitted, run, ih, List.cons_append]

theorem run_add (p : Params) (a b : Nat) (t : Track) :
    run p (a + b) t = run p b (run p a t) := by
  induction a generalizing t with
  | zero => simp [run]
  | succ a ih =>
    rw [Nat.add_right_comm]
    simp only [run, ih]

/-- Preamble: `remainingPreambles` calls emit that many 1 bits and leave the cursor alone. -/
theorem emitted_preamble (p : Params) (k : Nat) (t : Track) (h : t.remainingPreambles = k) :
    emitted p k t = List.replicate k WAVE_MID_1 ∧
      SameCore (run p k t) { t with remainingPreambles := 0 } := by
  induction k generalizing t with
  | zero =>
    refine ⟨rfl, ?_⟩
    simp only [run]
    rw [← h]
    exact SameCore.refl _
  | succ k ih =>
    have hs : interrupt2 p t =
        { t with state := WAVE_MID_1, remainingPreambles := t.remainingPreambles - 1 } := by
      unfold interrupt2
      rw [if_pos (by omega)]
    have := ih (interrupt2 p t) (by rw [hs]; simp; omega)
    refine ⟨?_, ?_⟩
    · simp only [emitted, this.1, List.replicate_succ]
      rw [hs]
    · simp only [run]
      refine SameCore.trans this.2 ?_
      rw [hs]
      rfl

theorem mask_bit (b i : Nat) (hi : i < 8) :
    (b &&& bitMask.getD (i + 1) 0 ≠ 0) ↔ b.testBit (7 - i) = true := by
  have h7 := and_two_pow_ne_zero b 7
  have h6 := and_two_pow_ne_zero b 6
  have h5 := and_two_pow_ne_zero b 5
  have h4 := and_two_pow_ne_zero b 4
  have h3 := and_two_pow_ne_zero b 3
  have h2 := and_two_pow_ne_zero b 2
  have h1 := and_two_pow_ne_zero b 1
  have h0 := and_two_pow_ne_zero b 0
  interval_cases i <;> simp [bitMask] <;> assumption

theorem nextBit_zero (t : Track) (h : t.bits_sent = 0) : nextBit t = WAVE_HIGH_0 := by
  simp [nextBit, h, bitMask]

theorem nextBit_succ (t : Track) (i : Nat) (hi : i < 8) (h : t.bits_sent = i + 1) :
    nextBit t = bitOf ((t.transmitPacket.getD t.bytes_sent 0).testBit (7 - i)) := by
  unfold nextBit bitOf
  rw [h]
  by_cases hb : (t.transmitPacket.getD t.bytes_sent 0).testBit (7 - i) = true
  · rw [if_pos ((mask_bit _ i hi).2 hb), if_pos hb]
  · rw [if_neg (fun hc => hb ((mask_bit _ i hi).1 hc)), if_neg hb]

/-- A call that is not the last bit of a byte only chooses the bit and moves
the bit cursor. -/
theorem interrupt2_bit (p : Params) (t : Track) (h0 : t.remainingPreambles = 0)
    (hi : t.bits_sent < 8) :
    interrupt2 p t = { t with state := nextBit t, bits_sent := t.bits_sent + 1 } := by
  unfold interrupt2
  rw [if_neg (by omega)]
  have : (t.bits_sent + 1) % 256 = t.bits_sent + 1 := Nat.mod_eq_of_lt (by omega)
  simp only [this]
  rw [if_neg (by omega)]


theorem interrupt2_state (p : Params) (t : Track) (h0 : t.remainingPreambles = 0) :
    (interrupt2 p t).state = nextBit t := by
  unfold interrupt2
  rw [if_neg (by omega)]
  simp only
  split_ifs <;> rfl

theorem byteBits_eq (b : Nat) : byteBits b =
    [WAVE_HIGH_0, bitOf (b.testBit 7), bitOf (b.testBit 6), bitOf (b.testBit 5),
      bitOf (b.testBit 4), bitOf (b.testBit 3), bitOf (b.testBit 2), bitOf (b.testBit 1),
      bitOf (b.testBit 0)] := rfl

theorem byteBits_get (t : Track) (k : Nat) (hk : k ≤ 8) :
    (byteBits (t.transmitPacket.getD t.bytes_sent 0))[k]? =
      some (nextBit { t with bits_sent := k }) := by
  rcases Nat.eq_zero_or_pos k with h | h
  · subst h
    rw [nextBit_zero _ rfl]
    rfl
  · obtain ⟨i, rfl⟩ : ∃ i, k = i + 1 := ⟨k - 1, by omega⟩
    rw [nextBit_succ { t with bits_sent := i + 1 } i (by omega) rfl, byteBits_eq]
    have hi : i < 8 := by omega
    interval_cases i <;> rfl

/-- The first `k ≤ 8` calls on a byte emit the first `k` bits of its nine-bit frame. -/
theorem emitted_bits (p : Params) (t : Track) (h0 : t.remainingPreambles = 0)
    (hb : t.bits_sent = 0) (k : Nat) (hk : k ≤ 8) :
    emitted p k t = (byteBits (t.transmitPacket.getD t.bytes_sent 0)).take k ∧
      SameCore (run p k t) { t with bits_sent := k } := by
  induction k with
  | zero =>
    refine ⟨rfl, ?_⟩
    simp only [run]
    rw [← hb]
    exact SameCore.refl _
  | succ k ih =>
    obtain ⟨ih1, ih2⟩ := ih (by omega)
    have hstep : interrupt2 p { t with bits_sent := k } =
        { t with state := nextBit { t with bits_sent := k }, bits_sent := k + 1 } :=
      interrupt2_bit p { t with bits_sent := k } h0 (by show k < 8; omega)
    refine ⟨?_, ?_⟩
    · rw [emitted_add, ih1, emitted_core p ih2 1, List.take_succ, byteBits_get t k (by omega)]
      simp only [emitted, hstep, Option.toList]
    · rw [run_add]
      refine SameCore.trans (run_core p ih2 1) ?_
      simp only [run, hstep]
      rfl

/-- The nine calls spent on one byte emit its frame; the ninth call is the
one that moves the byte cursor. -/
theorem emitted_byte (p : Params) (t : Track) (h0 : t.remainingPreambles = 0)
    (hb : t.bits_sent = 0) :
    emitted p 9 t = byteBits (t.transmitPacket.getD t.bytes_sent 0) ∧
      run p 9 t = interrupt2 p { t with bits_sent := 8 } := by
  obtain ⟨h1, h2⟩ := emitted_bits p t h0 hb 8 (by omega)
  refine ⟨?_, ?_⟩
  · rw [show (9 : Nat) = 8 + 1 from rfl, emitted_add, h1, emitted_core p h2 1]
    simp only [emitted, interrupt2_state p { t with bits_sent := 8 } h0]
    rw [nextBit_succ { t with bits_sent := 8 } 7 (by omega) rfl, byteBits_eq]
    rfl
  · rw [show (9 : Nat) = 8 + 1 from rfl, run_add]
    simp only [run]
    exact interrupt2_core p h2

/-- The last bit of a byte that is not the last byte of the packet. -/
theorem interrupt2_byte_end (p : Params) (t : Track) (h0 : t.remainingPreambles = 0)
    (hb : t.bits_sent = 8) (hj : t.bytes_sent + 1 < t.transmitLength)
    (hL : t.transmitLength ≤ 255) :
    interrupt2 p t = { t with state := nextBit t, bits_sent := 0, bytes_sent := t.bytes_sent + 1 } := by
  unfold interrupt2
  rw [if_neg (by omega)]
  have : (t.bytes_sent + 1) % 256 = t.bytes_sent + 1 := Nat.mod_eq_of_lt (by omega)
  simp only [hb, this]
  rw [if_pos trivial, if_neg (by omega)]


theorem take_succ_drop (l : List Nat) (j d : Nat) (h : j < l.length) :
    (l.drop j).take (d + 1) = l.getD j 0 :: (l.drop (j + 1)).take d := by
  rw [List.drop_eq_getElem_cons h, List.take_succ_cons, List.getD_eq_getElem _ _ h]

/-- From the start of byte `bytes_sent`, the calls spent on the rest of the packet
emit the frames of the remaining bytes in buffer order; the last of them is the
packet-boundary call. -/
theorem emitted_bytes (p : Params) (d : Nat) (t : Track) (h0 : t.remainingPreambles = 0)
    (hb : t.bits_sent = 0) (hj : t.bytes_sent + d + 1 = t.transmitLength)
    (hL : t.transmitLength ≤ 255) (hlen : t.transmitLength ≤ t.transmitPacket.length) :
    emitted p (9 * (d + 1)) t =
        packetBits ((t.transmitPacket.drop t.bytes_sent).take (d + 1)) ∧
      run p (9 * (d + 1)) t =
        interrupt2 p { t with bits_sent := 8, bytes_sent := t.transmitLength - 1 } := by
  induction d generalizing t with
  | zero =>
    obtain ⟨h1, h2⟩ := emitted_byte p t h0 hb
    have hlt : t.bytes_sent < t.transmitPacket.length := by omega
    refine ⟨?_, ?_⟩
    · rw [show 9 * (0 + 1) = 9 from rfl, h1, take_succ_drop _ _ _ hlt]
      simp [packetBits]
    · rw [show 9 * (0 + 1) = 9 from rfl, h2]
      have : t.transmitLength - 1 = t.bytes_sent := by omega
      rw [this]
  | succ d ih =>
    obtain ⟨h1, h2⟩ := emitted_byte p t h0 hb
    have hlt : t.bytes_sent < t.transmitPacket.length := by omega
    have hend := interrupt2_byte_end p { t with bits_sent := 8 } h0 rfl
      (by show t.bytes_sent + 1 < t.transmitLength; omega) hL
    rw [hend] at h2
    have hnine : 9 * (d + 1 + 1) = 9 + 9 * (d + 1) := by ring
    obtain ⟨i1, i2⟩ := ih (run p 9 t) (by rw [h2]; exact h0) (by rw [h2])
      (by rw [h2]; show t.bytes_sent + 1 + d + 1 = t.transmitLength; omega)
      (by rw [h2]; exact hL) (by rw [h2]; exact hlen)
    refine ⟨?_, ?_⟩
    · rw [hnine, emitted_add, h1, i1, h2, take_succ_drop _ _ (d + 1) hlt]
      simp only [packetBits, List.flatMap_cons]
    · rw [hnine, run_add, i2, h2]
      exact interrupt2_core p rfl


theorem run_core_succ (p : Params) {t u : Track} (h : SameCore t u) (k : Nat) :
    run p (k + 1) t = run p (k + 1) u := by
  simp only [run, interrupt2_core p h]

/-- A whole packet from any point of its preamble: the remaining preamble
bits, then the frames of bytes `0 .. transmitLength-1`; the last call is the
packet-boundary call. -/
theorem emitted_packet (p : Params) (t : Track) (hb : t.bits_sent = 0) (hj : t.bytes_sent = 0)
    (h1 : 1 ≤ t.transmitLength) (hL : t.transmitLength ≤ 255)
    (hlen : t.transmitLength ≤ t.transmitPacket.length) :
    emitted p (t.remainingPreambles + 9 * t.transmitLength) t =
        List.replicate t.remainingPreambles WAVE_MID_1 ++
          packetBits (t.transmitPacket.take t.transmitLength) ∧
      run p (t.remainingPreambles + 9 * t.transmitLength) t = interrupt2 p (lastCall t) := by
  obtain ⟨e1, e2⟩ := emitted_preamble p t.remainingPreambles t rfl
  obtain ⟨d, hd⟩ : ∃ d, d + 1 = t.transmitLength := ⟨t.transmitLength - 1, by omega⟩
  have f := emitted_bytes p d { t with remainingPreambles := 0 } rfl hb
    (by show t.bytes_sent + d + 1 = t.transmitLength; omega) hL hlen
  dsimp only at f
  have hdrop : List.drop t.bytes_sent t.transmitPacket = t.transmitPacket := by rw [hj]; rfl
  rw [hd, hdrop] at f
  obtain ⟨f1, f2⟩ := f
  refine ⟨?_, ?_⟩
  · rw [emitted_add, e1, emitted_core p e2, f1]
  · have h9 : 9 * t.transmitLength = (9 * d + 8) + 1 := by omega
    rw [run_add, h9, run_core_succ p e2, ← h9, f2]
    rfl

/-- A packet loaded at a packet boundary: `requiredPreambles` 1 bits, then its
bytes. -/
theorem emitted_packet_start (p : Params) (t : Track) (hs : PacketStart t) :
    emitted p (t.requiredPreambles + 9 * t.transmitLength) t =
        preamble t ++ packetBits (t.transmitPacket.take t.transmitLength) ∧
      run p (t.requiredPreambles + 9 * t.transmitLength) t = interrupt2 p (lastCall t) := by
  obtain ⟨hr, hb, hj, h1, hL, hlen⟩ := hs
  have := emitted_packet p t hb hj h1 hL hlen
  rw [hr] at this
  exact this

/-- At a packet boundary with repeats left, the same packet is started again. -/
theorem interrupt2_boundary_repeat (p : Params) (t : Track) (h : AtBoundary t)
    (hr : 0 < t.transmitRepeats) :
    interrupt2 p t = { t with
      state := nextBit t
      bits_sent := 0
      bytes_sent := 0
      remainingPreambles := t.requiredPreambles
      transmitRepeats := t.transmitRepeats - 1 } := by
  obtain ⟨h0, hb, hj⟩ := h
  unfold interrupt2
  rw [if_neg (by omega)]
  simp only [hb]
  rw [if_pos trivial, if_pos hj, if_pos hr]

/-- At a packet boundary with no repeats left and a packet pending, the pending
packet is taken up. -/
theorem interrupt2_boundary_pending (p : Params) (t : Track) (h : AtBoundary t)
    (hr : t.transmitRepeats = 0) (hp : t.packetPending = true) :
    interrupt2 p t = { t with
      state := nextBit t
      bits_sent := 0
      bytes_sent := 0
      remainingPreambles := t.requiredPreambles
      transmitPacket := memcpy t.transmitPacket t.pendingPacket t.pendingPacket.length
      transmitLength := t.pendingLength
      transmitRepeats := t.pendingRepeats
      packetPending := false
      sentResetsSincePacket := 0 } := by
  obtain ⟨h0, hb, hj⟩ := h
  unfold interrupt2
  rw [if_neg (by omega)]
  simp only [hb]
  rw [if_pos trivial, if_pos hj, if_neg (by omega), if_pos hp]

/-- At a packet boundary with no repeats left and nothing pending, the filler
packet of the track is loaded. -/
theorem interrupt2_boundary_filler (p : Params) (t : Track) (h : AtBoundary t)
    (hr : t.transmitRepeats = 0) (hp : t.packetPending = false) :
    interrupt2 p t = { t with
      state := nextBit t
      bits_sent := 0
      bytes_sent := 0
      remainingPreambles := t.requiredPreambles
      transmitPacket := memcpy t.transmitPacket (filler p t.isMainTrack) p.idlePacket.length
      transmitLength := p.idlePacket.length
      transmitRepeats := 0
      sentResetsSincePacket :=
        if t.sentResetsSincePacket < 250 then t.sentResetsSincePacket + 1
        else t.sentResetsSincePacket } := by
  obtain ⟨h0, hb, hj⟩ := h
  unfold interrupt2
  rw [if_neg (by omega)]
  simp only [hb]
  rw [if_pos trivial, if_pos hj, if_neg (by omega), if_neg (by simp [hp])]
  rfl

theorem lastCall_atBoundary (t : Track) (h1 : 1 ≤ t.transmitLength) (hL : t.transmitLength ≤ 255) :
    AtBoundary (lastCall t) := by
  refine ⟨rfl, rfl, ?_⟩
  show (t.transmitLength - 1 + 1) % 256 ≥ t.transmitLength
  rw [Nat.mod_eq_of_lt (by omega)]
  omega

/-! ## Repeats, the pending packet and the filler packet -/

theorem memcpy_all (dst src : List Nat) (h : dst.length = src.length) :
    memcpy dst src src.length = src := by
  unfold memcpy
  rw [List.take_length, List.drop_eq_nil_of_le (by omega), List.append_nil]

theorem memcpy_take (dst src : List Nat) (n : Nat) (h : src.length = n) :
    (memcpy dst src n).take n = src := by
  unfold memcpy
  subst h
  rw [List.take_length, List.take_left']
  rfl

theorem memcpy_length (dst src : List Nat) (n : Nat) (h : src.length = n) (hn : n ≤ dst.length) :
    (memcpy dst src n).length = dst.length := by
  unfold memcpy
  subst h
  simp
  omega

theorem filler_length (p : Params) (hp : p.WF) (b : Bool) :
    (filler p b).length = p.idlePacket.length := by
  unfold filler
  cases b
  · simpa using hp.2.1
  · simp

/-- A packet with `r` repeats left and nothing pending is sent `r + 1` times in a
row, after which the filler packet is loaded. -/
theorem emitted_repeats (p : Params) (r : Nat) (t : Track) (hs : PacketStart t)
    (hr : t.transmitRepeats = r) (hp : t.packetPending = false) :
    emitted p ((r + 1) * (t.requiredPreambles + 9 * t.transmitLength)) t =
        (List.replicate (r + 1)
          (preamble t ++ packetBits (t.transmitPacket.take t.transmitLength))).flatten ∧
      SameCore (run p ((r + 1) * (t.requiredPreambles + 9 * t.transmitLength)) t)
        (loadFiller p t) := by
  induction r generalizing t with
  | zero =>
    obtain ⟨e1, e2⟩ := emitted_packet_start p t hs
    have hb := lastCall_atBoundary t hs.2.2.2.1 hs.2.2.2.2.1
    rw [interrupt2_boundary_filler p (lastCall t) hb hr hp] at e2
    simp only [Nat.zero_add, Nat.one_mul, List.replicate_one, List.flatten_cons,
      List.flatten_nil, List.append_nil]
    refine ⟨e1, ?_⟩
    rw [e2]
    rfl
  | succ r ih =>
    obtain ⟨e1, e2⟩ := emitted_packet_start p t hs
    have hb := lastCall_atBoundary t hs.2.2.2.1 hs.2.2.2.2.1
    rw [interrupt2_boundary_repeat p (lastCall t) hb (by show 0 < t.transmitRepeats; omega)] at e2
    have hcore : SameCore (run p (t.requiredPreambles + 9 * t.transmitLength) t)
        { t with transmitRepeats := r } := by
      rw [e2]
      simp [SameCore, lastCall, hs.1, hs.2.1, hs.2.2.1, hr]
    have ih2 := ih { t with transmitRepeats := r } hs rfl hp
    dsimp only at ih2
    obtain ⟨i1, i2⟩ := ih2
    have hmul : (r + 1 + 1) * (t.requiredPreambles + 9 * t.transmitLength) =
        (t.requiredPreambles + 9 * t.transmitLength) +
          (r + 1) * (t.requiredPreambles + 9 * t.transmitLength) := by ring
    refine ⟨?_, ?_⟩
    · rw [hmul, emitted_add, e1, emitted_core p hcore, i1, List.replicate_succ _ (r + 1),
        List.flatten_cons]
      rfl
    · rw [hmul, run_add]
      exact SameCore.trans (run_core p hcore _) i2


/-- The fields `interrupt2` never writes. -/
theorem interrupt2_untouched (p : Params) (t : Track) :
    (interrupt2 p t).pendingPacket = t.pendingPacket ∧
      (interrupt2 p t).pendingLength = t.pendingLength ∧
      (interrupt2 p t).pendingRepeats = t.pendingRepeats ∧
      (interrupt2 p t).requiredPreambles = t.requiredPreambles ∧
      (interrupt2 p t).isMainTrack = t.isMainTrack := by
  simp only [interrupt2]
  split_ifs <;> exact ⟨rfl, rfl, rfl, rfl, rfl⟩

theorem interrupt2_WF (p : Params) (hp : p.WF) (t : Track) (ht : t.WF p) :
    (interrupt2 p t).WF p := by
  obtain ⟨h1, h2⟩ := ht
  refine ⟨?_, by rw [(interrupt2_untouched p t).1]; exact h2⟩
  have hle := hp.2.2.2
  simp only [interrupt2]
  split_ifs <;> first
    | exact h1
    | (show (memcpy _ _ _).length = _; rw [memcpy_all _ _ (by omega)]; exact h2)
    | (show (memcpy _ _ _).length = _; rw [memcpy_length _ _ _ rfl (by omega)]; exact h1)
    | (show (memcpy _ _ _).length = _; rw [memcpy_length _ _ _ hp.2.1 (by omega)]; exact h1)

theorem run_untouched (p : Params) (k : Nat) (t : Track) :
    (run p k t).pendingPacket = t.pendingPacket ∧
      (run p k t).pendingLength = t.pendingLength ∧
      (run p k t).pendingRepeats = t.pendingRepeats ∧
      (run p k t).requiredPreambles = t.requiredPreambles ∧
      (run p k t).isMainTrack = t.isMainTrack := by
  induction k generalizing t with
  | zero => simp [run]
  | succ k ih =>
    obtain ⟨a1, a2, a3, a4, a5⟩ := ih (interrupt2 p t)
    obtain ⟨b1, b2, b3, b4, b5⟩ := interrupt2_untouched p t
    simp only [run]
    exact ⟨a1.trans b1, a2.trans b2, a3.trans b3, a4.trans b4, a5.trans b5⟩

theorem run_WF (p : Params) (hp : p.WF) (k : Nat) (t : Track) (ht : t.WF p) :
    (run p k t).WF p := by
  induction k generalizing t with
  | zero => exact ht
  | succ k ih => exact ih _ (interrupt2_WF p hp t ht)

/-- The track right after the packet-boundary call that takes up the pending
packet. -/
theorem after_takeup (p : Params) (u : Track) (hu : u.WF p) (h : TakesPending u)
    (h1 : 1 ≤ u.pendingLength) (h2 : u.pendingLength ≤ p.MAX_PACKET_SIZE + 1)
    (hM : p.MAX_PACKET_SIZE < 255) :
    PacketStart (interrupt2 p u) ∧
      (interrupt2 p u).transmitPacket = u.pendingPacket ∧
      (interrupt2 p u).transmitLength = u.pendingLength ∧
      (interrupt2 p u).transmitRepeats = u.pendingRepeats ∧
      (interrupt2 p u).packetPending = false := by
  obtain ⟨hb, hr, hpend⟩ := h
  obtain ⟨w1, w2⟩ := hu
  rw [interrupt2_boundary_pending p u hb hr hpend]
  have hm := memcpy_all u.transmitPacket u.pendingPacket (by omega)
  refine ⟨⟨rfl, rfl, rfl, h1, ?_, ?_⟩, hm, rfl, rfl, rfl⟩
  · show u.pendingLength ≤ 255
    omega
  · show u.pendingLength ≤ (memcpy u.transmitPacket u.pendingPacket u.pendingPacket.length).length
    rw [hm]
    omega

/-- From the start of a packet with nothing pending: the packet `transmitRepeats + 1`
times, then the filler packet. -/
theorem emitted_then_filler (p : Params) (hp : p.WF) (v : Track) (hv : v.WF p)
    (hs : PacketStart v) (hpend : v.packetPending = false) :
    emitted p ((v.transmitRepeats + 1) * (v.requiredPreambles + 9 * v.transmitLength) +
        (v.requiredPreambles + 9 * p.idlePacket.length)) v =
      (List.replicate (v.transmitRepeats + 1)
          (preamble v ++ packetBits (v.transmitPacket.take v.transmitLength))).flatten ++
        (preamble v ++ packetBits (filler p v.isMainTrack)) := by
  obtain ⟨e1, e2⟩ := emitted_repeats p v.transmitRepeats v hs rfl hpend
  have hf := filler_length p hp v.isMainTrack
  have hstart : PacketStart (loadFiller p v) := by
    refine ⟨rfl, rfl, rfl, hp.2.2.1, ?_, ?_⟩
    · show p.idlePacket.length ≤ 255
      have := hp.1
      have := hp.2.2.2
      omega
    · show p.idlePacket.length ≤
        (memcpy v.transmitPacket (filler p v.isMainTrack) p.idlePacket.length).length
      rw [memcpy_length _ _ _ hf (by have := hp.2.2.2; have := hv.1; omega)]
      have := hp.2.2.2
      have := hv.1
      omega
  obtain ⟨f1, _⟩ := emitted_packet_start p (loadFiller p v) hstart
  have f2 : emitted p (v.requiredPreambles + 9 * p.idlePacket.length) (loadFiller p v) =
      preamble v ++ packetBits (filler p v.isMainTrack) := by
    rw [← memcpy_take v.transmitPacket (filler p v.isMainTrack) p.idlePacket.length hf]
    exact f1
  rw [emitted_add, e1, emitted_core p e2, f2]

theorem payload_bufferOf (P : List Nat) : payload (bufferOf P) P.length = P := by
  apply List.ext_getElem
  · simp [payload]
  · intro i h1 h2
    simp [payload, bufferOf, List.getElem?_eq_getElem h2]


/-! ## Positions in the bit stream -/

theorem byteBits_length (b : Nat) : (byteBits b).length = 9 := rfl

theorem packetBits_length (bytes : List Nat) : (packetBits bytes).length = 9 * bytes.length := by
  induction bytes with
  | nil => rfl
  | cons b bs ih =>
    simp only [packetBits, List.flatMap_cons, List.length_append, List.length_cons] at ih ⊢
    rw [ih, byteBits_length]
    omega

/-- Bit `m` of the frame of byte `j` sits at position `9 * j + m` of the packet. -/
theorem packetBits_get (bytes : List Nat) (j m : Nat) (hj : j < bytes.length) (hm : m < 9) :
    (packetBits bytes)[9 * j + m]? = (byteBits (bytes.getD j 0))[m]? := by
  induction bytes generalizing j with
  | nil => simp at hj
  | cons b bs ih =>
    simp only [packetBits, List.flatMap_cons]
    cases j with
    | zero =>
      rw [List.getElem?_append_left (by rw [byteBits_length]; omega)]
      simp
    | succ j =>
      rw [List.getElem?_append_right (by rw [byteBits_length]; omega), byteBits_length]
      have : 9 * (j + 1) + m - 9 = 9 * j + m := by omega
      rw [this]
      have h2 := ih j (by simpa using hj)
      simp only [packetBits] at h2
      rw [h2]
      simp

theorem byteBits_data (b i : Nat) (hi : i < 8) :
    (byteBits b)[i + 1]? = some (bitOf (b.testBit (7 - i))) := by
  rw [byteBits_eq]
  interval_cases i <;> rfl

/-! ## Sessions without a pulse -/

theorem schedulePacket_ack (p : Params) (t : Track) (buffer : Nat → Nat) (n r : Nat) :
    let u := (schedulePacket p t buffer n r).getD t
    u.ackPending = t.ackPending ∧ u.ackDetected = t.ackDetected ∧
      u.ackPulseStart = t.ackPulseStart ∧ u.ackThreshold = t.ackThreshold := by
  simp only [schedulePacket]
  split_ifs <;> exact ⟨rfl, rfl, rfl, rfl⟩

theorem interrupt2_ack (p : Params) (t : Track) :
    (interrupt2 p t).ackPending = t.ackPending ∧ (interrupt2 p t).ackDetected = t.ackDetected ∧
      (interrupt2 p t).ackPulseStart = t.ackPulseStart ∧
      (interrupt2 p t).ackThreshold = t.ackThreshold := by
  simp only [interrupt2]
  split_ifs <;> exact ⟨rfl, rfl, rfl, rfl⟩

/-- A sample at or below the threshold with no pulse begun. -/
theorem checkAck_quiet (p : Params) (t : Track) (c : Int) (mi ml : Nat)
    (hc : c ≤ t.ackThreshold) (h0 : t.ackPulseStart = 0) :
    (checkAck p t c mi ml).ackDetected = t.ackDetected ∧
      (checkAck p t c mi ml).ackPulseStart = 0 ∧
      (checkAck p t c mi ml).ackThreshold = t.ackThreshold ∧
      ((checkAck p t c mi ml).ackPending = true ↔
        t.ackPending = true ∧ t.sentResetsSincePacket ≤ 6) := by
  unfold checkAck
  by_cases h : t.sentResetsSincePacket > 6
  · rw [if_pos h]
    refine ⟨rfl, h0, rfl, ?_⟩
    simp
    intro _
    omega
  · rw [if_neg h]
    by_cases hm : c > t.ackMaxCurrent
    · simp only [hm, if_true]
      rw [if_neg (by omega), if_pos h0]
      refine ⟨rfl, h0, rfl, ?_⟩
      simp
      omega
    · simp only [hm, if_false]
      rw [if_neg (by omega), if_pos h0]
      refine ⟨rfl, h0, rfl, ?_⟩
      simp
      omega

theorem session_inv (p : Params) (th : Int) (ops : List Op) (t : Track)
    (hq : ∀ op ∈ ops, Quiet th op) (hd : t.ackDetected = false) (h0 : t.ackPulseStart = 0)
    (hth : t.ackThreshold = th) :
    (runOps p t ops).ackDetected = false ∧
      (runOps p t ops).ackPulseStart = 0 ∧
      (runOps p t ops).ackThreshold = th ∧
      ((runOps p t ops).ackPending = true ↔
        t.ackPending = true ∧ ∀ v ∈ checkCalls p t ops, v ≤ 6) := by
  induction ops generalizing t with
  | nil => simp [runOps, checkCalls, hd, h0, hth]
  | cons op ops ih =>
    have hq2 : ∀ o ∈ ops, Quiet th o := fun o ho => hq o (List.mem_cons_of_mem _ ho)
    have hq1 : Quiet th op := hq op (List.mem_cons_self _ _)
    cases op with
    | advance =>
      have := ih (applyOp p t Op.advance) hq2 hd h0 hth
      simpa [runOps, checkCalls] using this
    | encode =>
      obtain ⟨a1, a2, a3, a4⟩ := interrupt2_ack p t
      have := ih (applyOp p t Op.encode) hq2 (a2.trans hd) (a3.trans h0) (a4.trans hth)
      simp only [applyOp, a1] at this
      simpa [runOps, checkCalls] using this
    | schedule b n r =>
      obtain ⟨a1, a2, a3, a4⟩ := schedulePacket_ack p t b n r
      have := ih (applyOp p t (Op.schedule b n r)) hq2 (a2.trans hd) (a3.trans h0)
        (a4.trans hth)
      simp only [applyOp, a1] at this
      simpa [runOps, checkCalls] using this
    | sample c mi ml =>
      by_cases hp : t.ackPending = true
      · obtain ⟨a1, a2, a3, a4⟩ := checkAck_quiet p t c mi ml (by rw [hth]; exact hq1) h0
        have hap : applyOp p t (Op.sample c mi ml) = checkAck p t c mi ml := by
          simp [applyOp, hp]
        have := ih (applyOp p t (Op.sample c mi ml)) hq2 (by rw [hap, a1]; exact hd)
          (by rw [hap]; exact a2) (by rw [hap, a3]; exact hth)
        refine ⟨by simpa [runOps] using this.1, by simpa [runOps] using this.2.1,
          by simpa [runOps] using this.2.2.1, ?_⟩
        have h2 := this.2.2.2
        rw [hap, a4] at h2
        simp only [runOps, List.foldl_cons, checkCalls, hp, if_true, List.mem_append,
          List.mem_singleton] at h2 ⊢
        rw [hap, h2]
        constructor
        · rintro ⟨⟨_, h6⟩, hall⟩
          refine ⟨trivial, ?_⟩
          rintro v (hv | hv)
          · omega
          · exact hall v hv
        · rintro ⟨_, hall⟩
          exact ⟨⟨trivial, hall _ (Or.inl rfl)⟩, fun v hv => hall v (Or.inr hv)⟩
      · have hap : applyOp p t (Op.sample c mi ml) = t := by
          simp [applyOp, hp]
        have := ih t hq2 hd h0 hth
        simp only [runOps, List.foldl_cons, hap, checkCalls]
        refine ⟨this.1, this.2.1, this.2.2.1, ?_⟩
        have h2 := this.2.2.2
        simp only [runOps] at h2
        rw [h2]
        simp [hp]


/-! ## The dispatcher -/

/-- Every call of `interrupt2` chooses a 1 bit or a 0 bit. -/
theorem interrupt2_chooses (p : Params) (t : Track) :
    (interrupt2 p t).state = WAVE_MID_1 ∨ (interrupt2 p t).state = WAVE_HIGH_0 := by
  have hn : nextBit t = WAVE_MID_1 ∨ nextBit t = WAVE_HIGH_0 := by
    unfold nextBit
    split_ifs
    · exact Or.inl rfl
    · exact Or.inr rfl
  simp only [interrupt2]
  split_ifs <;> first | exact Or.inl rfl | exact hn

/-- The wave state is never read by `interrupt2`. -/
theorem interrupt2_setState (p : Params) (t : Track) (s : WAVE_STATE) :
    interrupt2 p { t with state := s } = interrupt2 p t :=
  interrupt2_core p rfl

theorem checkAck_state (p : Params) (t : Track) (c : Int) (mi ml : Nat) :
    (checkAck p t c mi ml).state = t.state := by
  simp only [checkAck]
  split_ifs <;> rfl

/-- After a tick no track is left in `WAVE_PENDING`, whatever its state before. -/
theorem handler_resolves (p : Params) (sync : Bool) (m pr : Track) (c : Int) (mi ml : Nat) :
    (interruptHandler p sync m pr c mi ml).mainTrack.state ≠ WAVE_PENDING ∧
      (interruptHandler p sync m pr c mi ml).progTrack.state ≠ WAVE_PENDING := by
  have hi : ∀ u : Track, (interrupt2 p u).state ≠ WAVE_PENDING := by
    intro u
    rcases interrupt2_chooses p u with h | h <;> rw [h] <;> decide
  simp only [interruptHandler]
  refine ⟨?_, ?_⟩
  · split_ifs with h1
    · exact hi _
    · exact h1
  · split_ifs with h1 h2
    · exact hi _
    · rw [checkAck_state]; exact h1
    · exact h1

theorem noProgtrack_resolves (p : Params) (m : Track) :
    (interruptHandlerNoProgtrack p m).2.state ≠ WAVE_PENDING := by
  have hi : ∀ u : Track, (interrupt2 p u).state ≠ WAVE_PENDING := by
    intro u
    rcases interrupt2_chooses p u with h | h <;> rw [h] <;> decide
  simp only [interruptHandlerNoProgtrack]
  split_ifs with h1
  · exact hi _
  · exact h1

theorem ticks_resolved (p : Params) (ins : List TickInput) (s : Track × Track)
    (h1 : s.1.state ≠ WAVE_PENDING) (h2 : s.2.state ≠ WAVE_PENDING) :
    (ticks p ins s).1.state ≠ WAVE_PENDING ∧ (ticks p ins s).2.state ≠ WAVE_PENDING := by
  induction ins generalizing s with
  | nil => exact ⟨h1, h2⟩
  | cons i rest ih =>
    simp only [ticks]
    have := handler_resolves p i.progTrackSyncMain s.1 s.2 i.current i.micros i.millis
    exact ih _ this.1 this.2

theorem ticksNoProgtrack_resolved (p : Params) (k : Nat) (m : Track)
    (h : m.state ≠ WAVE_PENDING) : (ticksNoProgtrack p k m).state ≠ WAVE_PENDING := by
  induction k generalizing m with
  | zero => exact h
  | succ k ih =>
    simp only [ticksNoProgtrack]
    exact ih _ (noProgtrack_resolves p m)

theorem not_pending_iff (s : WAVE_STATE) :
    s ≠ WAVE_PENDING ↔
      s ∈ [WAVE_START, WAVE_MID_1, WAVE_HIGH_0, WAVE_MID_0, WAVE_LOW_0] := by
  cases s <;> decide

/-- Over any number of ticks the full dispatcher moves the main track as the
main-track-only dispatcher does. -/
theorem ticks_main (p : Params) (ins : List TickInput) (s : Track × Track) :
    (ticks p ins s).1 = ticksNoProgtrack p ins.length s.1 := by
  induction ins generalizing s with
  | nil => rfl
  | cons i rest ih =>
    simp only [ticks, List.length_cons, ticksNoProgtrack]
    rw [ih]
    rfl

/-! ## The claims -/

/-- C1. Round trip: a payload `P` of at most `MAX_PACKET_SIZE` bytes scheduled
with `r` repeats on a track with a free pending slot is accepted, and from
the packet-boundary call that takes it up the encoder emits the preamble and the
bytes `P` followed by the single byte XOR(`P`), `r + 1` times in a row, and then
the preamble and the filler packet of the track. -/
theorem roundtrip (p : Params) (hp : p.WF) (t : Track) (ht : t.WF p) (P : List Nat) (r : Nat)
    (hn : P.length ≤ p.MAX_PACKET_SIZE) (hfree : t.packetPending = false) :
    ∃ s, schedulePacket p t (bufferOf P) P.length r = some s ∧
      ∀ k, TakesPending (run p k s) →
        emitted p
            ((r + 1) * (t.requiredPreambles + 9 * (P.length + 1)) +
              (t.requiredPreambles + 9 * p.idlePacket.length))
            (run p (k + 1) s) =
          (List.replicate (r + 1)
              (List.replicate t.requiredPreambles WAVE_MID_1 ++
                packetBits (P ++ [xorAll P]))).flatten ++
            (List.replicate t.requiredPreambles WAVE_MID_1 ++
              packetBits (filler p t.isMainTrack)) := by
  have hacc := schedulePacket_accept p t (bufferOf P) P.length r ht.2 hn hfree
  rw [payload_bufferOf] at hacc
  obtain ⟨s, hs⟩ : ∃ s : Track, s = { t with
      pendingPacket := P ++ [xorAll P] ++ t.pendingPacket.drop (P.length + 1)
      pendingLength := (P.length + 1) % 256
      pendingRepeats := r
      packetPending := true
      sentResetsSincePacket := 0 } := ⟨_, rfl⟩
  rw [← hs] at hacc
  refine ⟨s, hacc, ?_⟩
  intro k hk
  have hM := hp.1
  have hsWF : s.WF p := by
    rw [hs]
    refine ⟨ht.1, ?_⟩
    have := ht.2
    simp only [List.length_append, List.length_drop, List.length_singleton]
    omega
  have hsl : s.pendingLength = P.length + 1 := by
    rw [hs]
    exact Nat.mod_eq_of_lt (by omega)
  have hsp : s.pendingPacket = P ++ [xorAll P] ++ t.pendingPacket.drop (P.length + 1) := by
    rw [hs]
  have hsr : s.pendingRepeats = r := by rw [hs]
  have hsq : s.requiredPreambles = t.requiredPreambles := by rw [hs]
  have hsm : s.isMainTrack = t.isMainTrack := by rw [hs]
  obtain ⟨u1, u2, u3, u4, u5⟩ := run_untouched p k s
  obtain ⟨v1, v2, v3, v4, v5⟩ := interrupt2_untouched p (run p k s)
  have hrun : run p (k + 1) s = interrupt2 p (run p k s) := by
    rw [run_add]; rfl
  obtain ⟨a1, a2, a3, a4, a5⟩ := after_takeup p (run p k s) (run_WF p hp k s hsWF) hk
    (by rw [u2, hsl]; omega) (by rw [u2, hsl]; omega) hM
  have hfin := emitted_then_filler p hp (interrupt2 p (run p k s))
    (interrupt2_WF p hp _ (run_WF p hp k s hsWF)) a1 a5
  rw [a4, a3, a2, u1, u2, u3, v4, v5, u4, u5, hsl, hsp, hsr, hsq, hsm] at hfin
  unfold preamble at hfin
  rw [v4, u4, hsq, List.take_left' (by simp)] at hfin
  rw [hrun]
  exact hfin

set_option maxRecDepth 100000 in
/-- C1 at `P = {0x03, 0x22, 0x10}`, `r = 2` on the main track: the bytes
`{0x03, 0x22, 0x10, 0x31}` three times, then the idle packet. -/
theorem roundtrip_witness :
    ∃ s, schedulePacket avrParams exampleMain (bufferOf [0x03, 0x22, 0x10]) 3 2 = some s ∧
      TakesPending (run avrParams 43 s) ∧
      emitted avrParams (3 * (17 + 9 * 4) + (17 + 9 * 3)) (run avrParams 44 s) =
        (List.replicate 3
            (List.replicate 17 WAVE_MID_1 ++ packetBits [0x03, 0x22, 0x10, 0x31])).flatten ++
          (List.replicate 17 WAVE_MID_1 ++ packetBits [0xFF, 0x00, 0xFF]) := by
  obtain ⟨s, hs, h⟩ := roundtrip avrParams (by decide) exampleMain (by decide)
    [0x03, 0x22, 0x10] 2 (by decide) (by decide)
  have e : s = (schedulePacket avrParams exampleMain (bufferOf [0x03, 0x22, 0x10]) 3 2).getD
      exampleMain := by
    rw [show ([0x03, 0x22, 0x10] : List Nat).length = 3 from rfl] at hs
    rw [hs]
    rfl
  have hk : TakesPending (run avrParams 43 s) := by
    rw [e]
    decide
  exact ⟨s, hs, hk, h 43 hk⟩

/-- C2. With the pending slot free and `byteCount ≤ MAX_PACKET_SIZE`,
`schedulePacket` returns and leaves the payload in `pendingPacket[0..byteCount)`,
the XOR of the payload bytes in `pendingPacket[byteCount]`, `pendingLength =
byteCount + 1`, `pendingRepeats = repeats`, `packetPending` set and
`sentResetsSincePacket = 0`. -/
theorem schedulePacket_stores (p : Params) (hM : p.MAX_PACKET_SIZE < 255) (t : Track)
    (hlen : t.pendingPacket.length = p.MAX_PACKET_SIZE + 1) (buffer : Nat → Nat)
    (byteCount repeats : Nat) (hn : byteCount ≤ p.MAX_PACKET_SIZE)
    (hfree : t.packetPending = false) :
    ∃ s, schedulePacket p t buffer byteCount repeats = some s ∧
      (∀ i, i < byteCount → s.pendingPacket.getD i 0 = buffer i) ∧
      s.pendingPacket.getD byteCount 0 = xorAll (payload buffer byteCount) ∧
      s.pendingPacket.take (byteCount + 1) =
        payload buffer byteCount ++ [xorAll (payload buffer byteCount)] ∧
      s.pendingLength = byteCount + 1 ∧ s.pendingRepeats = repeats ∧
      s.packetPending = true ∧ s.sentResetsSincePacket = 0 := by
  refine ⟨_, schedulePacket_accept p t buffer byteCount repeats hlen hn hfree, ?_, ?_, ?_,
    Nat.mod_eq_of_lt (by omega), rfl, rfl, rfl⟩
  · intro i hi
    have hpl : (payload buffer byteCount).length = byteCount := by simp [payload]
    show (payload buffer byteCount ++ [xorAll (payload buffer byteCount)] ++
      t.pendingPacket.drop (byteCount + 1)).getD i 0 = buffer i
    rw [List.append_assoc, List.getD_append _ _ _ _ (by omega),
      List.getD_eq_getElem _ _ (by omega)]
    simp [payload]
  · have hpl : (payload buffer byteCount).length = byteCount := by simp [payload]
    show (payload buffer byteCount ++ [xorAll (payload buffer byteCount)] ++
      t.pendingPacket.drop (byteCount + 1)).getD byteCount 0 = _
    rw [List.append_assoc, List.getD_append_right _ _ _ _ (by omega), hpl, Nat.sub_self]
    rfl
  · show (payload buffer byteCount ++ [xorAll (payload buffer byteCount)] ++
      t.pendingPacket.drop (byteCount + 1)).take (byteCount + 1) = _
    rw [List.take_left' (by simp [payload])]

/-- C2 at the payload `{0x03, 0x22, 0x10}` with 2 repeats: the pending buffer
starts `{0x03, 0x22, 0x10, 0x31}` and the pending length is 4. -/
theorem schedulePacket_stores_witness :
    ∃ s, schedulePacket avrParams exampleMain (bufferOf [0x03, 0x22, 0x10]) 3 2 = some s ∧
      s.pendingPacket.take 4 = [0x03, 0x22, 0x10, 0x31] ∧ s.pendingLength = 4 ∧
      s.pendingRepeats = 2 ∧ s.packetPending = true ∧ s.sentResetsSincePacket = 0 := by
  obtain ⟨s, h1, _, _, h4, h5, h6, h7, h8⟩ := schedulePacket_stores avrParams (by decide)
    exampleMain (by decide) (bufferOf [0x03, 0x22, 0x10]) 3 2 (by decide) (by decide)
  exact ⟨s, h1, h4, h5, h6, h7, h8⟩

/-- C3. For `byteCount > MAX_PACKET_SIZE` the call `schedulePacket` returns with the
whole track unchanged, whether or not a packet is pending. -/
theorem schedulePacket_oversized (p : Params) (t : Track) (buffer : Nat → Nat)
    (byteCount repeats : Nat) (h : byteCount > p.MAX_PACKET_SIZE) :
    schedulePacket p t buffer byteCount repeats = some t := by
  unfold schedulePacket
  rw [if_pos h]

/-- C3 at six payload bytes (`MAX_PACKET_SIZE` is 5), on a track with a packet
pending and on a track without. -/
theorem schedulePacket_oversized_witness :
    schedulePacket avrParams exampleRepeating (bufferOf [1, 2, 3, 4, 5, 6]) 6 1 =
        some exampleRepeating ∧
      schedulePacket avrParams exampleMain (bufferOf [1, 2, 3, 4, 5, 6]) 6 1 = some exampleMain :=
  ⟨schedulePacket_oversized avrParams exampleRepeating _ 6 1 (by decide),
    schedulePacket_oversized avrParams exampleMain _ 6 1 (by decide)⟩

/-- C4. Per-byte framing: from the start of a packet, once the remaining
preamble is sent, byte `j` of the transmit buffer occupies the nine bits from
position `9 * j`: a 0 framing bit (`WAVE_HIGH_0`), then bit `i` of the byte,
counted from the most significant, as the `(i + 1)`-th bit after it; the bytes
come in buffer order, index 0 to `transmitLength - 1`. -/
theorem framing (p : Params) (t : Track) (hb : t.bits_sent = 0) (hj : t.bytes_sent = 0)
    (h1 : 1 ≤ t.transmitLength) (hL : t.transmitLength ≤ 255)
    (hlen : t.transmitLength ≤ t.transmitPacket.length) :
    (emitted p (t.remainingPreambles + 9 * t.transmitLength) t).drop t.remainingPreambles =
        packetBits (t.transmitPacket.take t.transmitLength) ∧
      ∀ j, j < t.transmitLength →
        (emitted p (t.remainingPreambles + 9 * t.transmitLength) t)[t.remainingPreambles + 9 * j]? =
            some WAVE_HIGH_0 ∧
          ∀ i, i < 8 →
            (emitted p (t.remainingPreambles + 9 * t.transmitLength) t)[t.remainingPreambles +
                9 * j + (i + 1)]? =
              some (if (t.transmitPacket.getD j 0).testBit (7 - i) then WAVE_MID_1
                else WAVE_HIGH_0) := by
  obtain ⟨e, _⟩ := emitted_packet p t hb hj h1 hL hlen
  have hlenT : (t.transmitPacket.take t.transmitLength).length = t.transmitLength := by
    rw [List.length_take]; omega
  have hget : ∀ j, j < t.transmitLength →
      (t.transmitPacket.take t.transmitLength).getD j 0 = t.transmitPacket.getD j 0 := by
    intro j hj2
    simp [List.getD_eq_getElem?_getD, List.getElem?_take, hj2]
  refine ⟨?_, ?_⟩
  · rw [e, List.drop_left' (by simp)]
  · intro j hj2
    rw [e]
    refine ⟨?_, ?_⟩
    · rw [List.getElem?_append_right (by simp), List.length_replicate]
      have : t.remainingPreambles + 9 * j - t.remainingPreambles = 9 * j + 0 := by omega
      rw [this, packetBits_get _ j 0 (by omega) (by omega)]
      rfl
    · intro i hi
      rw [List.getElem?_append_right (by simp; omega), List.length_replicate]
      have : t.remainingPreambles + 9 * j + (i + 1) - t.remainingPreambles = 9 * j + (i + 1) := by
        omega
      rw [this, packetBits_get _ j (i + 1) (by omega) (by omega), hget j hj2,
        byteBits_data _ i hi]
      rfl

set_option maxRecDepth 100000 in
/-- C4 on the idle packet `{0xFF, 0x00, 0xFF}` of the main track. -/
theorem framing_witness :
    (emitted avrParams (17 + 9 * 3) exampleMain).drop 17 = packetBits [0xFF, 0x00, 0xFF] ∧
      (emitted avrParams (17 + 9 * 3) exampleMain)[17 + 9 * 1]? = some WAVE_HIGH_0 ∧
      (emitted avrParams (17 + 9 * 3) exampleMain)[17 + 9 * 1 + (7 + 1)]? = some WAVE_HIGH_0 ∧
      (emitted avrParams (17 + 9 * 3) exampleMain)[17 + 9 * 2 + (0 + 1)]? = some WAVE_MID_1 := by
  have h := framing avrParams exampleMain (by decide) (by decide) (by decide) (by decide)
    (by decide)
  have e1 : exampleMain.remainingPreambles = 17 := by decide
  have e2 : exampleMain.transmitLength = 3 := by decide
  have e3 : exampleMain.transmitPacket = [0xFF, 0x00, 0xFF, 0, 0, 0] := by decide
  rw [e1, e2, e3] at h
  exact ⟨h.1, (h.2 1 (by decide)).1, (h.2 1 (by decide)).2 7 (by decide),
    (h.2 2 (by decide)).2 0 (by decide)⟩

set_option maxRecDepth 100000 in
/-- C5. The code at the static main track built with 16 preamble bits:
`requiredPreambles` is 17 but `remainingPreambles` is still 0, so the first nine
bits the encoder emits are the frame of the byte 0xFF; its framing 0 bit is the
very first bit and no 1 bit precedes it. -/
theorem first_packet_without_preamble :
    (DCCWaveform avrParams (zeroStorage avrParams) 16 true).requiredPreambles = 17 ∧
      (DCCWaveform avrParams (zeroStorage avrParams) 16 true).remainingPreambles = 0 ∧
      emitted avrParams 9 (DCCWaveform avrParams (zeroStorage avrParams) 16 true) =
        byteBits 0xFF ∧
      (emitted avrParams 1 (DCCWaveform avrParams (zeroStorage avrParams) 16 true))[0]? =
        some WAVE_HIGH_0 := by
  decide

set_option maxRecDepth 100000 in
/-- C6. The code on freshly constructed tracks on which nothing is scheduled: the
programming track first sends the single byte 0xFF taken from the idle packet and
only then the reset packet; the main track first sends the single byte 0xFF and
then the three-byte idle packet. -/
theorem first_packet_not_filler :
    emitted avrParams (9 + (23 + 27)) (DCCWaveform avrParams (zeroStorage avrParams) 22 false) =
        packetBits [0xFF] ++ (List.replicate 23 WAVE_MID_1 ++ packetBits avrParams.resetPacket) ∧
      emitted avrParams (9 + (17 + 27)) (DCCWaveform avrParams (zeroStorage avrParams) 16 true) =
        packetBits [0xFF] ++ (List.replicate 17 WAVE_MID_1 ++ packetBits avrParams.idlePacket) := by
  decide

/-- C7. Acknowledgment acceptance: with `sentResetsSincePacket ≤ 6`, a pulse in
progress, a sample at or below the threshold and a pulse duration within
`[minAckPulseDuration, maxAckPulseDuration]` (ends included), `checkAck` sets
`ackDetected`, clears `ackPending`, sets `transmitRepeats` to 0, and `getAck`
returns 1. -/
theorem checkAck_accepts (p : Params) (t : Track) (current : Int) (micros millis : Nat)
    (h1 : t.sentResetsSincePacket ≤ 6) (h2 : t.ackPulseStart ≠ 0)
    (h3 : current ≤ t.ackThreshold)
    (h4 : t.minAckPulseDuration ≤ elapsed p micros t.ackPulseStart)
    (h5 : elapsed p micros t.ackPulseStart ≤ t.maxAckPulseDuration) :
    (checkAck p t current micros millis).ackDetected = true ∧
      (checkAck p t current micros millis).ackPending = false ∧
      (checkAck p t current micros millis).transmitRepeats = 0 ∧
      (getAck (checkAck p t current micros millis)).1 = 1 := by
  have key : (checkAck p t current micros millis).ackDetected = true ∧
      (checkAck p t current micros millis).ackPending = false ∧
      (checkAck p t current micros millis).transmitRepeats = 0 := by
    unfold checkAck
    rw [if_neg (by omega)]
    by_cases hm : current > t.ackMaxCurrent
    · simp only [hm, if_true]
      rw [if_neg (by omega), if_neg h2, if_pos ⟨h4, h5⟩]
      exact ⟨rfl, rfl, rfl⟩
    · simp only [hm, if_false]
      rw [if_neg (by omega), if_neg h2, if_pos ⟨h4, h5⟩]
      exact ⟨rfl, rfl, rfl⟩
  refine ⟨key.1, key.2.1, key.2.2, ?_⟩
  unfold getAck
  rw [if_neg (by simp [key.2.1]), if_pos key.1]

/-- C7 at the window [4000, 8000] and a pulse of 6000 µs. -/
theorem checkAck_accepts_witness :
    elapsed avrParams 7000 exampleAck.ackPulseStart = 6000 ∧
      exampleAck.transmitRepeats = 3 ∧
      (checkAck avrParams exampleAck 50 7000 20).ackDetected = true ∧
      (checkAck avrParams exampleAck 50 7000 20).ackPending = false ∧
      (checkAck avrParams exampleAck 50 7000 20).transmitRepeats = 0 ∧
      (getAck (checkAck avrParams exampleAck 50 7000 20)).1 = 1 :=
  ⟨by decide, by decide,
    checkAck_accepts avrParams exampleAck 50 7000 20 (by decide) (by decide) (by decide)
      (by decide) (by decide)⟩

/-- C8. Acknowledgment timeout: in a session armed by `setAckPending` on a
programming track in which no sample exceeds the threshold, `ackDetected` stays
false and `ackPending` is true exactly as long as every `checkAck` call so far
was made with `sentResetsSincePacket ≤ 6`; a `checkAck` call made with
`sentResetsSincePacket ≥ 7` clears `ackPending` without setting `ackDetected`, and
`getAck` then returns 0. -/
theorem ack_timeout (p : Params) (t0 : Track) (ms : Nat) (ops : List Op)
    (hprog : t0.isMainTrack = false) (hq : ∀ op ∈ ops, Quiet t0.ackThreshold op) :
    (runOps p (setAckPending t0 ms) ops).ackDetected = false ∧
      ((runOps p (setAckPending t0 ms) ops).ackPending = true ↔
        ∀ v ∈ checkCalls p (setAckPending t0 ms) ops, v ≤ 6) ∧
      (getAck (runOps p (setAckPending t0 ms) ops)).1 =
        (if ∀ v ∈ checkCalls p (setAckPending t0 ms) ops, v ≤ 6 then 2 else 0) ∧
      ∀ (c : Int) (mi ml : Nat), c ≤ t0.ackThreshold →
        (runOps p (setAckPending t0 ms) ops).ackPending = true →
        ((runOps p (setAckPending t0 ms) ops).sentResetsSincePacket ≤ 6 →
          (checkAck p (runOps p (setAckPending t0 ms) ops) c mi ml).ackPending = true) ∧
        (7 ≤ (runOps p (setAckPending t0 ms) ops).sentResetsSincePacket →
          (checkAck p (runOps p (setAckPending t0 ms) ops) c mi ml).ackPending = false ∧
          (checkAck p (runOps p (setAckPending t0 ms) ops) c mi ml).ackDetected = false ∧
          (getAck (checkAck p (runOps p (setAckPending t0 ms) ops) c mi ml)).1 = 0) := by
  have hs : setAckPending t0 ms = { t0 with
      ackMaxCurrent := 0, ackPulseStart := 0, ackPulseDuration := 0, ackDetected := false,
      ackCheckStart := ms, ackPending := true } := by
    unfold setAckPending
    rw [if_neg (by simp [hprog])]
  obtain ⟨i1, i2, i3, i4⟩ := session_inv p t0.ackThreshold ops (setAckPending t0 ms) hq
    (by rw [hs]) (by rw [hs]) (by rw [hs])
  have hpend : (setAckPending t0 ms).ackPending = true := by rw [hs]
  rw [hpend] at i4
  simp only [true_and] at i4
  generalize runOps p (setAckPending t0 ms) ops = t at i1 i2 i3 i4 ⊢
  refine ⟨i1, i4, ?_, ?_⟩
  · unfold getAck
    by_cases h : ∀ v ∈ checkCalls p (setAckPending t0 ms) ops, v ≤ 6
    · rw [if_pos (i4.2 h), if_pos h]
    · have : ¬ t.ackPending = true := fun hc => h (i4.1 hc)
      rw [if_neg this, if_neg (by simp [i1]), if_neg h]
  · intro c mi ml hc hp
    obtain ⟨a1, _, _, a4⟩ := checkAck_quiet p t c mi ml (by rw [i3]; exact hc) i2
    refine ⟨fun h6 => a4.2 ⟨hp, h6⟩, fun h7 => ?_⟩
    have hnp : ¬ (checkAck p t c mi ml).ackPending = true := fun hc2 => by
      have := (a4.1 hc2).2
      omega
    have hnd : (checkAck p t c mi ml).ackDetected = false := a1.trans i1
    refine ⟨by simpa using hnp, hnd, ?_⟩
    unfold getAck
    rw [if_neg hnp, if_neg (by simp [hnd])]

set_option maxRecDepth 1000000 in
/-- C8 on a session with a `checkAck` call at 0 and one at 7 filler packets. -/
theorem ack_timeout_witness :
    (runOps avrParams (setAckPending exampleProg 0) exampleSession).ackDetected = false ∧
      (runOps avrParams (setAckPending exampleProg 0) exampleSession).ackPending = false ∧
      checkCalls avrParams (setAckPending exampleProg 0) exampleSession = [0, 7] ∧
      (getAck (runOps avrParams (setAckPending exampleProg 0) exampleSession)).1 = 0 := by
  obtain ⟨h1, h2, h3, _⟩ := ack_timeout avrParams exampleProg 0 exampleSession (by decide)
    (by decide)
  have hlog : checkCalls avrParams (setAckPending exampleProg 0) exampleSession = [0, 7] := by
    decide
  rw [hlog] at h2 h3
  refine ⟨h1, ?_, hlog, ?_⟩
  · have : ¬ (runOps avrParams (setAckPending exampleProg 0) exampleSession).ackPending = true :=
      fun hc => absurd (h2.1 hc) (by decide)
    simpa using this
  · rw [h3]
    decide

set_option maxRecDepth 100000 in
/-- C9 as stated fails: at a packet boundary with a packet pending and repeats
left, the pending packet is not taken up. -/
theorem pending_waits_for_repeats :
    ¬ (exampleRepeating.packetPending = true ∧ AtBoundary exampleRepeating →
        (interrupt2 avrParams exampleRepeating).transmitPacket = exampleRepeating.pendingPacket ∧
        (interrupt2 avrParams exampleRepeating).transmitLength = exampleRepeating.pendingLength ∧
        (interrupt2 avrParams exampleRepeating).transmitRepeats =
          exampleRepeating.pendingRepeats ∧
        (interrupt2 avrParams exampleRepeating).packetPending = false) := by
  decide

/-- C9, amended. At a packet boundary with a packet pending: if no repeats are
left, the pending buffer, length and repeat count become the transmit ones and
`packetPending` is cleared; if repeats are left, the call only decrements
`transmitRepeats` and the packet stays pending. -/
theorem boundary_takes_pending (p : Params) (t : Track) (ht : t.WF p)
    (hp : t.packetPending = true) (hb : AtBoundary t) :
    (t.transmitRepeats = 0 →
      (interrupt2 p t).transmitPacket = t.pendingPacket ∧
      (interrupt2 p t).transmitLength = t.pendingLength ∧
      (interrupt2 p t).transmitRepeats = t.pendingRepeats ∧
      (interrupt2 p t).packetPending = false) ∧
    (0 < t.transmitRepeats →
      (interrupt2 p t).transmitPacket = t.transmitPacket ∧
      (interrupt2 p t).transmitLength = t.transmitLength ∧
      (interrupt2 p t).transmitRepeats = t.transmitRepeats - 1 ∧
      (interrupt2 p t).packetPending = true) := by
  refine ⟨fun hr => ?_, fun hr => ?_⟩
  · rw [interrupt2_boundary_pending p t hb hr hp]
    exact ⟨memcpy_all _ _ (by rw [ht.1, ht.2]), rfl, rfl, rfl⟩
  · rw [interrupt2_boundary_repeat p t hb hr]
    exact ⟨rfl, rfl, rfl, hp⟩

set_option maxRecDepth 100000 in
/-- C9, amended, two packet boundaries later: the repeats are used up and the
packet `{0x05, 0x70, 0x75}` is taken up. -/
theorem boundary_takes_pending_witness :
    (run avrParams 106 exampleRepeating).packetPending = true ∧
      AtBoundary (run avrParams 106 exampleRepeating) ∧
      (run avrParams 106 exampleRepeating).transmitRepeats = 0 ∧
      (run avrParams 107 exampleRepeating).transmitPacket.take 3 = [0x05, 0x70, 0x75] ∧
      (run avrParams 107 exampleRepeating).transmitLength = 3 ∧
      (run avrParams 107 exampleRepeating).packetPending = false := by
  have h := (boundary_takes_pending avrParams (run avrParams 106 exampleRepeating) (by decide)
    (by decide) (by decide)).1 (by decide)
  have hrun : run avrParams 107 exampleRepeating =
      interrupt2 avrParams (run avrParams 106 exampleRepeating) := run_add avrParams 106 1 _
  rw [hrun, h.1, h.2.1]
  exact ⟨by decide, by decide, by decide, by decide, by decide, h.2.2.2⟩

/-- C10. The function `getAck` returns 2 if `ackPending`, otherwise 1 if `ackDetected`,
otherwise 0, and leaves the track as it is, so any number of calls returns the
same value. -/
theorem getAck_pure (t : Track) :
    (getAck t).1 = (if t.ackPending then 2 else if t.ackDetected then 1 else 0) ∧
      (getAck t).2 = t ∧
      ∀ n, (fun u => (getAck u).2)^[n] t = t ∧
        (getAck ((fun u => (getAck u).2)^[n] t)).1 = (getAck t).1 := by
  have h2 : ∀ u, (getAck u).2 = u := by
    intro u
    unfold getAck
    split_ifs <;> rfl
  have hit : ∀ n, (fun u => (getAck u).2)^[n] t = t := by
    intro n
    induction n with
    | zero => rfl
    | succ n ih => rw [Function.iterate_succ_apply', ih, h2]
  refine ⟨?_, h2 t, fun n => ⟨hit n, by rw [hit n]⟩⟩
  unfold getAck
  split_ifs <;> rfl

/-- At the trailing edge of a pulse (pulse in progress, sample at or below the
threshold, `sentResetsSincePacket ≤ 6`) whose duration as stored in
`ackPulseDuration` is below `minAckPulseDuration` or above `maxAckPulseDuration`,
`checkAck` leaves `ackDetected` false, `ackPending` true and `transmitRepeats`
unchanged and resets `ackPulseStart` to 0, so `getAck` still returns 2 and the
next sample above the threshold starts a new pulse. -/
theorem checkAck_discards (p : Params) (t : Track) (current : Int) (micros millis : Nat)
    (h1 : t.sentResetsSincePacket ≤ 6) (h2 : t.ackPulseStart ≠ 0)
    (h3 : current ≤ t.ackThreshold)
    (h4 : elapsed p micros t.ackPulseStart < t.minAckPulseDuration ∨
      t.maxAckPulseDuration < elapsed p micros t.ackPulseStart)
    (hd : t.ackDetected = false) (hp : t.ackPending = true) :
    (checkAck p t current micros millis).ackDetected = false ∧
      (checkAck p t current micros millis).ackPending = true ∧
      (checkAck p t current micros millis).transmitRepeats = t.transmitRepeats ∧
      (checkAck p t current micros millis).ackPulseStart = 0 ∧
      (getAck (checkAck p t current micros millis)).1 = 2 ∧
      ∀ (current2 : Int) (micros2 millis2 : Nat), current2 > t.ackThreshold →
        (checkAck p (checkAck p t current micros millis) current2 micros2 millis2).ackPulseStart =
            micros2 ∧
          (checkAck p (checkAck p t current micros millis) current2 micros2 millis2).ackPending =
            true := by
  have hw : ¬ (elapsed p micros t.ackPulseStart ≥ t.minAckPulseDuration ∧
      elapsed p micros t.ackPulseStart ≤ t.maxAckPulseDuration) := by
    intro h
    omega
  have key : checkAck p t current micros millis =
      { t with
        ackMaxCurrent := if current > t.ackMaxCurrent then current else t.ackMaxCurrent
        ackPulseDuration := elapsed p micros t.ackPulseStart
        ackPulseStart := 0 } := by
    unfold checkAck
    rw [if_neg (by omega)]
    by_cases hm : current > t.ackMaxCurrent
    · simp only [hm, if_true]
      rw [if_neg (by omega), if_neg h2, if_neg hw]
    · simp only [hm, if_false]
      rw [if_neg (by omega), if_neg h2, if_neg hw]
  rw [key]
  refine ⟨hd, hp, rfl, rfl, ?_, ?_⟩
  · unfold getAck
    rw [if_pos hp]
  · intro c2 mi2 ml2 hc2
    unfold checkAck
    simp only
    rw [if_neg (by omega)]
    split_ifs <;> first | exact ⟨rfl, hp⟩ | omega | skip
    all_goals simp_all

/-- A pulse of 3999 µs, one less than `minAckPulseDuration`, against the window
[4000, 8000] is discarded. -/
theorem checkAck_discards_witness :
    elapsed avrParams 4999 exampleAck.ackPulseStart = exampleAck.minAckPulseDuration - 1 ∧
      (checkAck avrParams exampleAck 50 4999 20).ackDetected = false ∧
      (checkAck avrParams exampleAck 50 4999 20).ackPending = true ∧
      (checkAck avrParams exampleAck 50 4999 20).transmitRepeats = 3 ∧
      (checkAck avrParams exampleAck 50 4999 20).ackPulseStart = 0 := by
  have h := checkAck_discards avrParams exampleAck 50 4999 20 (by decide) (by decide)
    (by decide) (by decide) (by decide) (by decide)
  exact ⟨by decide, h.1, h.2.1, h.2.2.1, h.2.2.2.1⟩

/-- What is stored in `ackPulseDuration` is the pulse duration reduced to the
width of the field. -/
theorem elapsed_eq (p : Params) (now start : Nat) :
    elapsed p now start = pulseDuration now start % p.durationModulus := rfl

/-- A pulse whose duration fits the field `ackPulseDuration` and lies outside the
window is discarded: this covers every pulse shorter than `minAckPulseDuration`
that fits, and every longer one up to the range of the field. -/
theorem checkAck_discards_fitting (p : Params) (t : Track) (current : Int)
    (micros millis : Nat) (h1 : t.sentResetsSincePacket ≤ 6) (h2 : t.ackPulseStart ≠ 0)
    (h3 : current ≤ t.ackThreshold)
    (hfit : pulseDuration micros t.ackPulseStart < p.durationModulus)
    (h4 : pulseDuration micros t.ackPulseStart < t.minAckPulseDuration ∨
      t.maxAckPulseDuration < pulseDuration micros t.ackPulseStart)
    (hd : t.ackDetected = false) (hp : t.ackPending = true) :
    (checkAck p t current micros millis).ackDetected = false ∧
      (checkAck p t current micros millis).ackPending = true ∧
      (checkAck p t current micros millis).transmitRepeats = t.transmitRepeats ∧
      (checkAck p t current micros millis).ackPulseStart = 0 := by
  have he : elapsed p micros t.ackPulseStart = pulseDuration micros t.ackPulseStart := by
    rw [elapsed_eq, Nat.mod_eq_of_lt hfit]
  have h := checkAck_discards p t current micros millis h1 h2 h3 (by rw [he]; exact h4) hd hp
  exact ⟨h.1, h.2.1, h.2.2.1, h.2.2.2.1⟩

/-- C11. The code at a pulse longer than the window on a target whose
`ackPulseDuration` is 16 bits wide: the trailing edge of a pulse of 71536 µs
against the window [4000, 8000] µs, seen with `sentResetsSincePacket ≤ 6` and a
sample at or below the threshold.  The duration is above `maxAckPulseDuration`,
yet the stored duration is 6000, and `checkAck` sets `ackDetected`, clears
`ackPending` and sets `transmitRepeats` (3 before) to 0, so `getAck` returns 1: the
pulse is not discarded. -/
theorem long_pulse_accepted :
    exampleAck.sentResetsSincePacket ≤ 6 ∧ exampleAck.ackPulseStart ≠ 0 ∧
      (50 : Int) ≤ exampleAck.ackThreshold ∧
      exampleAck.ackDetected = false ∧ exampleAck.ackPending = true ∧
      exampleAck.transmitRepeats = 3 ∧
      pulseDuration 72536 exampleAck.ackPulseStart = 71536 ∧
      exampleAck.maxAckPulseDuration < pulseDuration 72536 exampleAck.ackPulseStart ∧
      elapsed avrParams 72536 exampleAck.ackPulseStart = 6000 ∧
      (checkAck avrParams exampleAck 50 72536 20).ackPulseDuration = 6000 ∧
      (checkAck avrParams exampleAck 50 72536 20).ackDetected = true ∧
      (checkAck avrParams exampleAck 50 72536 20).ackPending = false ∧
      (checkAck avrParams exampleAck 50 72536 20).transmitRepeats = 0 ∧
      (getAck (checkAck avrParams exampleAck 50 72536 20)).1 = 1 := by
  refine ⟨by decide, by decide, by decide, by decide, by decide, by decide, by decide,
    by decide, by decide, ?_, ?_, ?_, ?_, ?_⟩ <;> decide

/-- C12. Waveform shape: from `WAVE_START`, a 1 bit chosen by `interrupt2`
(`WAVE_MID_1`) gives the two levels HIGH, LOW and a 0 bit (`WAVE_HIGH_0`) the four
levels HIGH, HIGH, LOW, LOW on consecutive ticks, after which the state is
`WAVE_START` again and `interrupt2` has run once. -/
theorem wave_shape (p : Params) (t : Track) (h : t.state = WAVE_START) :
    ((interrupt2 p t).state = WAVE_MID_1 ∨ (interrupt2 p t).state = WAVE_HIGH_0) ∧
      ((interrupt2 p t).state = WAVE_MID_1 →
        levels p 2 t = [true, false] ∧
          ticksNoProgtrack p 2 t = { interrupt2 p t with state := WAVE_START }) ∧
      ((interrupt2 p t).state = WAVE_HIGH_0 →
        levels p 4 t = [true, true, false, false] ∧
          ticksNoProgtrack p 4 t = { interrupt2 p t with state := WAVE_START }) := by
  have h1 : interruptHandlerNoProgtrack p t = (true, interrupt2 p t) := by
    simp only [interruptHandlerNoProgtrack, h, stateTransform, signalTransform, if_true]
    rw [interrupt2_setState]
  refine ⟨interrupt2_chooses p t, fun h2 => ?_, fun h2 => ?_⟩
  · simp only [levels, ticksNoProgtrack, h1]
    simp [interruptHandlerNoProgtrack, h2, stateTransform, signalTransform]
  · simp only [levels, ticksNoProgtrack, h1]
    simp [interruptHandlerNoProgtrack, h2, stateTransform, signalTransform]

set_option maxRecDepth 100000 in
/-- C12 on the main track: a preamble 1 bit, and the framing 0 bit of the first
byte after construction. -/
theorem wave_shape_witness :
    levels avrParams 2 exampleStart = [true, false] ∧
      levels avrParams 4 (DCCWaveform avrParams (zeroStorage avrParams) 16 true) =
        [true, true, false, false] :=
  ⟨((wave_shape avrParams exampleStart (by decide)).2.1 (by decide)).1,
    ((wave_shape avrParams (DCCWaveform avrParams (zeroStorage avrParams) 16 true)
      (by decide)).2.2 (by decide)).1⟩

/-- C13. In `interruptHandler` the main level is `signalTransform` of the main state
before the tick; the programming level is `signalTransform` of the programming
state before the tick when `progTrackSyncMain` is false and the main level when it
is true. -/
theorem handler_levels (p : Params) (mainTrack progTrack : Track)
    (current : Int) (micros millis : Nat) :
    (∀ sync, (interruptHandler p sync mainTrack progTrack current micros millis).sigMain =
        signalTransform mainTrack.state) ∧
      (interruptHandler p false mainTrack progTrack current micros millis).sigProg =
        signalTransform progTrack.state ∧
      (interruptHandler p true mainTrack progTrack current micros millis).sigProg =
        (interruptHandler p true mainTrack progTrack current micros millis).sigMain ∧
      (interruptHandler p true mainTrack progTrack current micros millis).sigProg =
        signalTransform mainTrack.state :=
  ⟨fun _ => rfl, rfl, rfl, rfl⟩

/-- C14. The main-track-only dispatcher is the main-track part of the full one:
for all track states, flag settings and samples `interruptHandler` emits the same
main level and leaves the main track as `interruptHandlerNoProgtrack` does, over
one tick and over any sequence of ticks. -/
theorem handler_main_part (p : Params) (progTrackSyncMain : Bool) (mainTrack progTrack : Track)
    (current : Int) (micros millis : Nat) (ins : List TickInput) :
    (interruptHandler p progTrackSyncMain mainTrack progTrack current micros millis).sigMain =
        (interruptHandlerNoProgtrack p mainTrack).1 ∧
      (interruptHandler p progTrackSyncMain mainTrack progTrack current micros
          millis).mainTrack =
        (interruptHandlerNoProgtrack p mainTrack).2 ∧
      (ticks p ins (mainTrack, progTrack)).1 = ticksNoProgtrack p ins.length mainTrack :=
  ⟨rfl, rfl, ticks_main p ins (mainTrack, progTrack)⟩

/-- C15. On a programming track `setAckPending` sets `ackMaxCurrent`, `ackPulseStart`
and `ackPulseDuration` to 0, `ackDetected` to false and `ackPending` to true; besides
these only `ackCheckStart` changes, and `getAck` right after returns 2. -/
theorem setAckPending_arms (t : Track) (millis : Nat) (h : t.isMainTrack = false) :
    setAckPending t millis = { t with
        ackMaxCurrent := 0
        ackPulseStart := 0
        ackPulseDuration := 0
        ackDetected := false
        ackCheckStart := millis
        ackPending := true } ∧
      (setAckPending t millis).ackMaxCurrent = 0 ∧
      (setAckPending t millis).ackPulseStart = 0 ∧
      (setAckPending t millis).ackPulseDuration = 0 ∧
      (setAckPending t millis).ackDetected = false ∧
      (setAckPending t millis).ackPending = true ∧
      ((setAckPending t millis).state = t.state ∧
        (setAckPending t millis).transmitPacket = t.transmitPacket ∧
        (setAckPending t millis).transmitLength = t.transmitLength ∧
        (setAckPending t millis).transmitRepeats = t.transmitRepeats ∧
        (setAckPending t millis).remainingPreambles = t.remainingPreambles ∧
        (setAckPending t millis).requiredPreambles = t.requiredPreambles ∧
        (setAckPending t millis).bits_sent = t.bits_sent ∧
        (setAckPending t millis).bytes_sent = t.bytes_sent ∧
        (setAckPending t millis).pendingPacket = t.pendingPacket ∧
        (setAckPending t millis).pendingLength = t.pendingLength ∧
        (setAckPending t millis).pendingRepeats = t.pendingRepeats ∧
        (setAckPending t millis).packetPending = t.packetPending ∧
        (setAckPending t millis).sentResetsSincePacket = t.sentResetsSincePacket) ∧
      (getAck (setAckPending t millis)).1 = 2 := by
  have key : setAckPending t millis = { t with
      ackMaxCurrent := 0
      ackPulseStart := 0
      ackPulseDuration := 0
      ackDetected := false
      ackCheckStart := millis
      ackPending := true } := by
    unfold setAckPending
    rw [if_neg (by simp [h])]
  rw [key]
  exact ⟨rfl, rfl, rfl, rfl, rfl, rfl,
    ⟨rfl, rfl, rfl, rfl, rfl, rfl, rfl, rfl, rfl, rfl, rfl, rfl, rfl⟩, rfl⟩

/-- C15 on a programming track whose earlier session ended with an
acknowledgment. -/
theorem setAckPending_arms_witness :
    exampleAcked.ackDetected = true ∧
      (setAckPending exampleAcked 5).ackMaxCurrent = 0 ∧
      (setAckPending exampleAcked 5).ackPulseStart = 0 ∧
      (setAckPending exampleAcked 5).ackPulseDuration = 0 ∧
      (setAckPending exampleAcked 5).ackDetected = false ∧
      (setAckPending exampleAcked 5).ackPending = true ∧
      (getAck (setAckPending exampleAcked 5)).1 = 2 := by
  have h := setAckPending_arms exampleAcked 5 (by decide)
  exact ⟨by decide, h.2.1, h.2.2.1, h.2.2.2.1, h.2.2.2.2.1, h.2.2.2.2.2.1, h.2.2.2.2.2.2.2⟩

/-- C16. The function `schedulePacket` never touches what the encoder is
transmitting: it returns whenever the payload is oversized or the pending slot is
free, and whenever it returns `transmitPacket`, `transmitLength`, `transmitRepeats`,
`bytes_sent`, `bits_sent`, `remainingPreambles` and the wave state are unchanged;
only `pendingPacket`, `pendingLength`, `pendingRepeats`, `packetPending` and
`sentResetsSincePacket` may differ. -/
theorem schedulePacket_frame (p : Params) (t : Track) (buffer : Nat → Nat)
    (byteCount repeats : Nat) :
    (byteCount > p.MAX_PACKET_SIZE ∨ t.packetPending = false →
      ∃ s, schedulePacket p t buffer byteCount repeats = some s) ∧
    ∀ s, schedulePacket p t buffer byteCount repeats = some s →
      s.transmitPacket = t.transmitPacket ∧ s.transmitLength = t.transmitLength ∧
        s.transmitRepeats = t.transmitRepeats ∧ s.bytes_sent = t.bytes_sent ∧
        s.bits_sent = t.bits_sent ∧ s.remainingPreambles = t.remainingPreambles ∧
        s.state = t.state ∧
        s = { t with
          pendingPacket := s.pendingPacket
          pendingLength := s.pendingLength
          pendingRepeats := s.pendingRepeats
          packetPending := s.packetPending
          sentResetsSincePacket := s.sentResetsSincePacket } := by
  refine ⟨fun h => ?_, fun s hs => ?_⟩
  · unfold schedulePacket
    by_cases h1 : byteCount > p.MAX_PACKET_SIZE
    · rw [if_pos h1]; exact ⟨_, rfl⟩
    · rcases h with h | h
      · exact absurd h h1
      · rw [if_neg h1, h]
        exact ⟨_, rfl⟩
  · unfold schedulePacket at hs
    split_ifs at hs
    · cases hs
      exact ⟨rfl, rfl, rfl, rfl, rfl, rfl, rfl, rfl⟩
    · cases hs
      exact ⟨rfl, rfl, rfl, rfl, rfl, rfl, rfl, rfl⟩

set_option maxRecDepth 100000 in
/-- C16 on the main track in the middle of its idle traffic, for an accepted
call. -/
theorem schedulePacket_frame_witness :
    ∃ s, schedulePacket avrParams exampleMain (bufferOf [0x03, 0x22, 0x10]) 3 2 = some s ∧
      s.packetPending = true ∧
      s.transmitPacket = exampleMain.transmitPacket ∧
      s.transmitLength = exampleMain.transmitLength ∧
      s.transmitRepeats = exampleMain.transmitRepeats ∧
      s.bytes_sent = exampleMain.bytes_sent ∧ s.bits_sent = exampleMain.bits_sent ∧
      s.remainingPreambles = exampleMain.remainingPreambles ∧ s.state = exampleMain.state := by
  have h := schedulePacket_frame avrParams exampleMain (bufferOf [0x03, 0x22, 0x10]) 3 2
  obtain ⟨s, hs⟩ := h.1 (Or.inr (by decide))
  obtain ⟨a1, a2, a3, a4, a5, a6, a7, _⟩ := h.2 s hs
  have e : s = (schedulePacket avrParams exampleMain (bufferOf [0x03, 0x22, 0x10]) 3 2).getD
      exampleMain := by
    rw [hs]
    rfl
  have hpend : s.packetPending = true := by
    rw [e]
    decide
  exact ⟨s, hs, hpend, a1, a2, a3, a4, a5, a6, a7⟩

/-- C17. Packet-boundary priority: the `interrupt2` call that sends the last bit
of the last byte resets `bytes_sent` (and `bits_sent`) to 0 and `remainingPreambles`
to `requiredPreambles`, and then (a) with repeats left decrements `transmitRepeats`
and keeps buffer, length and `packetPending`; (b) otherwise, with a packet pending,
takes over the pending buffer, length and repeats, clears `packetPending` and sets
`sentResetsSincePacket` to 0; (c) otherwise loads the filler packet of the track
with 0 repeats and increments `sentResetsSincePacket` if it is below 250, leaving
it as it is (at the cap 250) otherwise. -/
theorem boundary_priority (p : Params) (t : Track) (ht : t.WF p) (hb : AtBoundary t) :
    (interrupt2 p t).bytes_sent = 0 ∧ (interrupt2 p t).bits_sent = 0 ∧
      (interrupt2 p t).remainingPreambles = t.requiredPreambles ∧
      (0 < t.transmitRepeats →
        (interrupt2 p t).transmitRepeats = t.transmitRepeats - 1 ∧
          (interrupt2 p t).transmitPacket = t.transmitPacket ∧
          (interrupt2 p t).transmitLength = t.transmitLength ∧
          (interrupt2 p t).packetPending = t.packetPending ∧
          (interrupt2 p t).sentResetsSincePacket = t.sentResetsSincePacket) ∧
      (t.transmitRepeats = 0 → t.packetPending = true →
        (interrupt2 p t).transmitPacket = t.pendingPacket ∧
          (interrupt2 p t).transmitLength = t.pendingLength ∧
          (interrupt2 p t).transmitRepeats = t.pendingRepeats ∧
          (interrupt2 p t).packetPending = false ∧
          (interrupt2 p t).sentResetsSincePacket = 0) ∧
      (t.transmitRepeats = 0 → t.packetPending = false →
        (interrupt2 p t).transmitPacket =
            memcpy t.transmitPacket (if t.isMainTrack then p.idlePacket else p.resetPacket)
              p.idlePacket.length ∧
          (interrupt2 p t).transmitLength = p.idlePacket.length ∧
          (interrupt2 p t).transmitRepeats = 0 ∧
          (interrupt2 p t).packetPending = false ∧
          (t.sentResetsSincePacket < 250 →
            (interrupt2 p t).sentResetsSincePacket = t.sentResetsSincePacket + 1) ∧
          (250 ≤ t.sentResetsSincePacket →
            (interrupt2 p t).sentResetsSincePacket = t.sentResetsSincePacket) ∧
          (t.sentResetsSincePacket = 250 → (interrupt2 p t).sentResetsSincePacket = 250)) := by
  have hcommon : (interrupt2 p t).bytes_sent = 0 ∧ (interrupt2 p t).bits_sent = 0 ∧
      (interrupt2 p t).remainingPreambles = t.requiredPreambles := by
    rcases Nat.eq_zero_or_pos t.transmitRepeats with hr | hr
    · cases hp : t.packetPending
      · rw [interrupt2_boundary_filler p t hb hr hp]
        exact ⟨rfl, rfl, rfl⟩
      · rw [interrupt2_boundary_pending p t hb hr hp]
        exact ⟨rfl, rfl, rfl⟩
    · rw [interrupt2_boundary_repeat p t hb hr]
      exact ⟨rfl, rfl, rfl⟩
  refine ⟨hcommon.1, hcommon.2.1, hcommon.2.2, fun hr => ?_, fun hr hp => ?_, fun hr hp => ?_⟩
  · rw [interrupt2_boundary_repeat p t hb hr]
    exact ⟨rfl, rfl, rfl, rfl, rfl⟩
  · rw [interrupt2_boundary_pending p t hb hr hp]
    exact ⟨memcpy_all _ _ (by rw [ht.1, ht.2]), rfl, rfl, rfl, rfl⟩
  · rw [interrupt2_boundary_filler p t hb hr hp]
    refine ⟨rfl, rfl, rfl, hp, fun h => ?_, fun h => ?_, fun h => ?_⟩
    · show (if t.sentResetsSincePacket < 250 then t.sentResetsSincePacket + 1
        else t.sentResetsSincePacket) = _
      rw [if_pos h]
    · show (if t.sentResetsSincePacket < 250 then t.sentResetsSincePacket + 1
        else t.sentResetsSincePacket) = _
      rw [if_neg (by omega)]
    · show (if t.sentResetsSincePacket < 250 then t.sentResetsSincePacket + 1
        else t.sentResetsSincePacket) = _
      rw [if_neg (by omega), h]

set_option maxRecDepth 100000 in
/-- C17 at three packet boundaries of the main track: one with repeats left, one
that takes up the pending packet `{0x05, 0x70, 0x75}`, one that loads the idle
packet. -/
theorem boundary_priority_witness :
    ((interrupt2 avrParams exampleRepeating).bytes_sent = 0 ∧
        (interrupt2 avrParams exampleRepeating).transmitRepeats = 1 ∧
        (interrupt2 avrParams exampleRepeating).packetPending = true) ∧
      ((interrupt2 avrParams (run avrParams 106 exampleRepeating)).transmitLength = 3 ∧
        (interrupt2 avrParams (run avrParams 106 exampleRepeating)).packetPending = false ∧
        (interrupt2 avrParams (run avrParams 106 exampleRepeating)).sentResetsSincePacket = 0) ∧
      ((interrupt2 avrParams (run avrParams 43 exampleMain)).transmitLength = 3 ∧
        (interrupt2 avrParams (run avrParams 43 exampleMain)).transmitRepeats = 0 ∧
        (interrupt2 avrParams (run avrParams 43 exampleMain)).sentResetsSincePacket = 2) := by
  have a := boundary_priority avrParams exampleRepeating (by decide) (by decide)
  have b := boundary_priority avrParams (run avrParams 106 exampleRepeating) (by decide)
    (by decide)
  have c := boundary_priority avrParams (run avrParams 43 exampleMain) (by decide) (by decide)
  have a4 := a.2.2.2.1 (by decide)
  have b5 := b.2.2.2.2.1 (by decide) (by decide)
  have c6 := c.2.2.2.2.2 (by decide) (by decide)
  refine ⟨⟨a.1, ?_, ?_⟩, ⟨?_, b5.2.2.2.1, b5.2.2.2.2⟩, ⟨c6.2.1, c6.2.2.1, ?_⟩⟩
  · rw [a4.1]; decide
  · rw [a4.2.2.2.1]; decide
  · rw [b5.2.1]; decide
  · rw [c6.2.2.2.2.1 (by decide)]; decide

/-- C18. `WAVE_PENDING` never survives a tick: from tracks in state `WAVE_START`,
after any sequence of `interruptHandler` ticks and after any number of
`interruptHandlerNoProgtrack` ticks each track is in one of the five states
`WAVE_START`, `WAVE_MID_1`, `WAVE_HIGH_0`, `WAVE_MID_0`, `WAVE_LOW_0`; so the state
looked up by the next tick is never `WAVE_PENDING`. -/
theorem pending_never_survives (p : Params) (mainTrack progTrack : Track)
    (hm : mainTrack.state = WAVE_START) (hp : progTrack.state = WAVE_START)
    (ins : List TickInput) (k : Nat) :
    (ticks p ins (mainTrack, progTrack)).1.state ∈
        [WAVE_START, WAVE_MID_1, WAVE_HIGH_0, WAVE_MID_0, WAVE_LOW_0] ∧
      (ticks p ins (mainTrack, progTrack)).2.state ∈
        [WAVE_START, WAVE_MID_1, WAVE_HIGH_0, WAVE_MID_0, WAVE_LOW_0] ∧
      (ticksNoProgtrack p k mainTrack).state ∈
        [WAVE_START, WAVE_MID_1, WAVE_HIGH_0, WAVE_MID_0, WAVE_LOW_0] := by
  have h := ticks_resolved p ins (mainTrack, progTrack) (by rw [hm]; decide) (by rw [hp]; decide)
  have h3 := ticksNoProgtrack_resolved p k mainTrack (by rw [hm]; decide)
  exact ⟨(not_pending_iff _).1 h.1, (not_pending_iff _).1 h.2, (not_pending_iff _).1 h3⟩

/-- C18 on the two tracks as constructed, after three ticks of the full
dispatcher and after five ticks of the main-track-only one. -/
theorem pending_never_survives_witness :
    (ticks avrParams [⟨false, 0, 0, 0⟩, ⟨true, 10, 58, 0⟩, ⟨false, 0, 116, 0⟩]
        (DCCWaveform avrParams (zeroStorage avrParams) 16 true,
          DCCWaveform avrParams (zeroStorage avrParams) 22 false)).1.state ∈
        [WAVE_START, WAVE_MID_1, WAVE_HIGH_0, WAVE_MID_0, WAVE_LOW_0] ∧
      (ticks avrParams [⟨false, 0, 0, 0⟩, ⟨true, 10, 58, 0⟩, ⟨false, 0, 116, 0⟩]
        (DCCWaveform avrParams (zeroStorage avrParams) 16 true,
          DCCWaveform avrParams (zeroStorage avrParams) 22 false)).2.state ∈
        [WAVE_START, WAVE_MID_1, WAVE_HIGH_0, WAVE_MID_0, WAVE_LOW_0] ∧
      (ticksNoProgtrack avrParams 5
        (DCCWaveform avrParams (zeroStorage avrParams) 16 true)).state ∈
        [WAVE_START, WAVE_MID_1, WAVE_HIGH_0, WAVE_MID_0, WAVE_LOW_0] :=
  pending_never_survives avrParams (DCCWaveform avrParams (zeroStorage avrParams) 16 true)
    (DCCWaveform avrParams (zeroStorage avrParams) 22 false) rfl rfl
    [⟨false, 0, 0, 0⟩, ⟨true, 10, 58, 0⟩, ⟨false, 0, 116, 0⟩] 5

/-- C19 as stated fails: with an acknowledgment window open
(`ackManagerActive` true) and the programming track neither synced nor boosted,
the programming driver is checked with hint false. -/
theorem hint_false_in_ack_window :
    ¬ ((loop [0, 1] (some 255) true false false).getLast? = some (255, true) ↔
        (true = true ∧ false = false ∧ false = false)) := by
  decide

/-- C19, amended. In `loop` every driver of the main chain is checked with hint
false, and the programming driver, when there is one, is checked last with a hint
that is true exactly when `ackManagerActive`, `progTrackSyncMain` and
`progTrackBoosted` are all false. -/
theorem loop_checks (mainChain : List Nat) (progDriver : Option Nat)
    (ackManagerActive progTrackSyncMain progTrackBoosted : Bool) :
    (loop mainChain progDriver ackManagerActive progTrackSyncMain progTrackBoosted).take
        mainChain.length = mainChain.map (fun driver => (driver, false)) ∧
      (∀ driver, progDriver = some driver →
        loop mainChain progDriver ackManagerActive progTrackSyncMain progTrackBoosted =
          mainChain.map (fun d => (d, false)) ++
            [(driver, decide (ackManagerActive = false ∧ progTrackSyncMain = false ∧
              progTrackBoosted = false))]) ∧
      (progDriver = none →
        loop mainChain progDriver ackManagerActive progTrackSyncMain progTrackBoosted =
          mainChain.map (fun d => (d, false))) := by
  refine ⟨?_, ?_, ?_⟩
  · unfold loop
    rw [List.take_left' (by simp)]
  · intro driver h
    subst h
    unfold loop
    cases ackManagerActive <;> cases progTrackSyncMain <;> cases progTrackBoosted <;> rfl
  · intro h
    subst h
    simp [loop]

/-- C19, amended, on a main driver with two boosters: the programming driver gets
hint true outside an acknowledgment window and false inside one. -/
theorem loop_checks_witness :
    loop [0, 1, 2] (some 255) false false false =
        [(0, false), (1, false), (2, false), (255, true)] ∧
      loop [0, 1, 2] (some 255) true false false =
        [(0, false), (1, false), (2, false), (255, false)] ∧
      loop [0, 1, 2] none true false false = [(0, false), (1, false), (2, false)] :=
  ⟨(loop_checks [0, 1, 2] (some 255) false false false).2.1 255 rfl,
    (loop_checks [0, 1, 2] (some 255) true false false).2.1 255 rfl,
    (loop_checks [0, 1, 2] none true false false).2.2 rfl⟩

/-- C20. Cursor bounds are an invariant: if `1 ≤ transmitLength ≤ MAX_PACKET_SIZE + 1`,
`bits_sent ≤ 8`, `bytes_sent < transmitLength` and `pendingLength` is in the same
range whenever a packet is pending, then the same holds (and the arrays keep
their size) after an `interrupt2` call and after a `schedulePacket` call that
returns; hence `bitMask[bits_sent]`, `transmitPacket[bytes_sent]` and the write
`pendingPacket[byteCount]` are within their arrays. -/
theorem cursor_bounds (p : Params) (hp : p.WF) (t : Track) (ht : t.WF p)
    (h : CursorBounds p t) :
    (CursorBounds p (interrupt2 p t) ∧ (interrupt2 p t).WF p) ∧
      (∀ (buffer : Nat → Nat) (byteCount repeats : Nat) (s : Track),
        schedulePacket p t buffer byteCount repeats = some s →
          CursorBounds p s ∧ s.WF p ∧
            (byteCount ≤ p.MAX_PACKET_SIZE → byteCount < t.pendingPacket.length)) ∧
      t.bits_sent < bitMask.length ∧ t.bytes_sent < t.transmitPacket.length := by
  have hwf := interrupt2_WF p hp t ht
  obtain ⟨h1, h2, h3, h4, h5⟩ := h
  obtain ⟨hM, hr, hi0, hi1⟩ := hp
  refine ⟨⟨?_, hwf⟩, ?_, ?_, ?_⟩
  · rcases Nat.eq_zero_or_pos t.remainingPreambles with h0 | h0
    · rcases Nat.lt_or_ge t.bits_sent 8 with hb | hb
      · rw [interrupt2_bit p t h0 hb]
        exact ⟨h1, h2, by show t.bits_sent + 1 ≤ 8; omega, h4, h5⟩
      · have hb8 : t.bits_sent = 8 := by omega
        have hmod : (t.bytes_sent + 1) % 256 = t.bytes_sent + 1 := Nat.mod_eq_of_lt (by omega)
        rcases Nat.lt_or_ge (t.bytes_sent + 1) t.transmitLength with hj | hj
        · rw [interrupt2_byte_end p t h0 hb8 hj (by omega)]
          exact ⟨h1, h2, by show (0 : Nat) ≤ 8; omega, hj, h5⟩
        · have hab : AtBoundary t := ⟨h0, hb8, by rw [hmod]; exact hj⟩
          rcases Nat.eq_zero_or_pos t.transmitRepeats with hr0 | hr0
          · cases hpp : t.packetPending
            · rw [interrupt2_boundary_filler p t hab hr0 hpp]
              exact ⟨hi0, hi1, by show (0 : Nat) ≤ 8; omega,
                by show 0 < p.idlePacket.length; omega,
                fun hc => by rw [hpp] at hc; exact absurd hc (by decide)⟩
            · have := h5 hpp
              rw [interrupt2_boundary_pending p t hab hr0 hpp]
              exact ⟨this.1, this.2, by show (0 : Nat) ≤ 8; omega,
                by show 0 < t.pendingLength; omega, fun hc => Bool.noConfusion hc⟩
          · rw [interrupt2_boundary_repeat p t hab hr0]
            exact ⟨h1, h2, by show (0 : Nat) ≤ 8; omega, by show 0 < t.transmitLength; omega,
              h5⟩
    · have hs : interrupt2 p t =
          { t with state := WAVE_MID_1, remainingPreambles := t.remainingPreambles - 1 } := by
        unfold interrupt2
        rw [if_pos h0]
      rw [hs]
      exact ⟨h1, h2, h3, h4, h5⟩
  · intro buffer byteCount repeats s hs
    by_cases c1 : byteCount > p.MAX_PACKET_SIZE
    · unfold schedulePacket at hs
      rw [if_pos c1] at hs
      cases hs
      exact ⟨⟨h1, h2, h3, h4, h5⟩, ht, fun hc => by omega⟩
    · cases hpp : t.packetPending
      · rw [schedulePacket_accept p t buffer byteCount repeats ht.2 (by omega) hpp] at hs
        cases hs
        refine ⟨⟨h1, h2, h3, h4, fun _ => ?_⟩, ⟨ht.1, ?_⟩, fun _ => by rw [ht.2]; omega⟩
        · show 1 ≤ (byteCount + 1) % 256 ∧ (byteCount + 1) % 256 ≤ p.MAX_PACKET_SIZE + 1
          rw [Nat.mod_eq_of_lt (by omega)]
          omega
        · have := ht.2
          simp only [payload, List.length_append, List.length_map, List.length_range,
            List.length_singleton, List.length_drop]
          omega
      · unfold schedulePacket at hs
        rw [if_neg c1, hpp] at hs
        simp at hs
  · show t.bits_sent < 9
    omega
  · rw [ht.1]
    omega

set_option maxRecDepth 100000 in
/-- C20 on the main track: the bounds hold at the start of the idle packet, after
the next `interrupt2` call and after a packet is scheduled. -/
theorem cursor_bounds_witness :
    CursorBounds avrParams exampleMain ∧
      CursorBounds avrParams (interrupt2 avrParams exampleMain) ∧
      ∃ s, schedulePacket avrParams exampleMain (bufferOf [0x03, 0x22, 0x10]) 3 2 = some s ∧
        CursorBounds avrParams s := by
  have h := cursor_bounds avrParams (by decide) exampleMain (by decide) (by decide)
  have hs := schedulePacket_accept avrParams exampleMain (bufferOf [0x03, 0x22, 0x10]) 3 2
    (by decide) (by decide) (by decide)
  exact ⟨by decide, h.1.1, _, hs, (h.2.1 _ _ _ _ hs).1⟩

end DCCWaveform
